import Mathlib

/-!
# Deployment-and-reconciliation scripts of the booking payment contract

A shallow embedding of `scripts/deploy-booking-payment-complete.js` and
`scripts/get-accounts.js`.

Text is modelled as `List Char`.  The two regular-expression features the
scripts use (a literal key followed by `.*`, without flags) and the
replacement-pattern expansion of `String.prototype.replace` only look at
ASCII characters and at the four line terminators, all of which are single
UTF-16 code units, so reading a JavaScript string as a list of characters
does not change what is matched or produced.
-/

namespace DeployScript

/-- JavaScript strings. -/
abbrev Str := List Char

/-! ## `String.prototype.replace(/key.*/, template)` -/

/-- The characters the regular-expression atom `.` (no `s` flag) refuses:
LF, CR, U+2028 and U+2029. -/
def isLineTerminator (c : Char) : Bool :=
  c == Char.ofNat 0x0A || c == Char.ofNat 0x0D || c == Char.ofNat 0x2028 || c == Char.ofNat 0x2029

/-- What `.` accepts. -/
def dot (c : Char) : Bool := !isLineTerminator c

/-- Attempt of `/key.*/` at the start of `s`: the literal `key`, then the
greedy `.*`.  Gives the matched text and the text after it. -/
def matchAt (key s : Str) : Option (Str × Str) :=
  if key.isPrefixOf s then
    some (key ++ (s.drop key.length).takeWhile dot, (s.drop key.length).dropWhile dot)
  else none

/-- Leftmost match of `/key.*/` in `s` (`RegExp.prototype.exec` without the
`g` or `y` flag): the text before the match, the match, the text after. -/
def regExpExec (key : Str) : Str → Option (Str × Str × Str)
  | [] => (matchAt key []).map fun r => ([], r.1, r.2)
  | c :: cs =>
    match matchAt key (c :: cs) with
    | some r => some ([], r.1, r.2)
    | none => (regExpExec key cs).map fun r => (c :: r.1, r.2.1, r.2.2)

/-- The replacement-pattern expansion `GetSubstitution` for a regular
expression without capture groups: `$$` gives `$`, `$&` the match, a dollar
and a backtick the text before the match, a dollar and an apostrophe the text
after it.  A dollar followed by anything else is copied as it is together
with the character after it, which is never a dollar there: a digit (there is
no capture group to refer to), `<` (there is no named group), or any other
character. -/
def getSubstitution (matched before after : Str) : Str → Str
  | [] => []
  | c :: rest =>
    if c = '$' then
      match rest with
      | [] => [c]
      | d :: rest2 =>
        if d = '$' then '$' :: getSubstitution matched before after rest2
        else if d = '&' then matched ++ getSubstitution matched before after rest2
        else if d = Char.ofNat 96 then before ++ getSubstitution matched before after rest2
        else if d = Char.ofNat 39 then after ++ getSubstitution matched before after rest2
        else c :: d :: getSubstitution matched before after rest2
    else c :: getSubstitution matched before after rest

/-- The call `s.replace(/key.*/, template)`: the first match, if any, is
replaced by the expansion of `template`; without a match `s` is returned. -/
def replace (s key template : Str) : Str :=
  match regExpExec key s with
  | none => s
  | some (before, matched, after) =>
    before ++ getSubstitution matched before after template ++ after

/-! ## The patch step of `main` (deploy script, lines 238-258) -/

/-- Source of `/app\.web3\.contract-address=.*/` up to the `.*`. -/
def contractAddressKey : Str := "app.web3.contract-address=".toList

/-- Source of `/app\.web3\.chain-id=.*/` up to the `.*`. -/
def chainIdKey : Str := "app.web3.chain-id=".toList

/-- Source of `/app\.web3\.rpc-url=.*/` up to the `.*`. -/
def rpcUrlKey : Str := "app.web3.rpc-url=".toList

/-- The value written for `app.web3.rpc-url` on network `localhost`. -/
def localRpcUrl : Str := "http://127.0.0.1:8545".toList

/-- The three `properties.replace` calls of `main`, lines 241-258.
`chainId` is the text the template literal gives for the chain id. -/
def patchProperties (properties contractAddress chainId network : Str) : Str :=
  let properties1 := replace properties contractAddressKey (contractAddressKey ++ contractAddress)
  let properties2 := replace properties1 chainIdKey (chainIdKey ++ chainId)
  if network = "localhost".toList then
    replace properties2 rpcUrlKey (rpcUrlKey ++ localRpcUrl)
  else properties2

/-! ## The deployment record (deploy script, lines 101-142) -/

/-- The `contract` object of the record. -/
structure ContractInfo where
  name : Str
  address : Str
  network : Str
  chainId : Str
  deployer : Str
  timestamp : Str
  blockNumber : Nat
deriving DecidableEq

/-- The `configuration` object of the record. -/
structure Configuration where
  platformWallet : Str
  platformFeePercent : Str
  admin : Str
deriving DecidableEq

/-- An element of the `accounts` array of the record; `note` is only present
on the entry of account 0. -/
structure AccountInfo where
  index : Nat
  address : Str
  balance : Str
  isAdmin : Bool
  note : Option Str
deriving DecidableEq

/-- The `functions` object of the record. -/
structure FunctionInventory where
  «public» : List Str
  admin : List Str
  constants : List Str
deriving DecidableEq

/-- The object `deploymentInfo`. -/
structure DeploymentInfo where
  contract : ContractInfo
  configuration : Configuration
  accounts : List AccountInfo
  functions : FunctionInventory
deriving DecidableEq

/-- The static function inventory written into every record. -/
def functions : FunctionInventory where
  «public» := [
    "createBookingPayment(uint256,address,address,uint256,uint256) - payable".toList,
    "completeBooking(uint256) - only host or admin".toList,
    "cancelBooking(uint256) - only guest or admin".toList,
    "getBooking(uint256) - view".toList,
    "bookingExistsCheck(uint256) - view".toList,
    "getContractBalance() - view".toList,
    "getBookingWithReclamation(uint256) - view".toList,
    "getReclamationRefund(uint256) - view".toList]
  admin := [
    "transferAdmin(address) - only admin".toList,
    "emergencyWithdraw() - only admin".toList,
    "processReclamationRefund(uint256,address,uint256,uint256,bool) - only admin".toList,
    "processPartialRefund(uint256,address,uint256,bool) - only admin".toList,
    "setActiveReclamation(uint256,bool) - only admin".toList]
  constants := [
    "PLATFORM_WALLET() - constant".toList,
    "PLATFORM_FEE_PERCENT() - constant".toList,
    "admin() - public".toList]

/-! ## The world of the deploy script -/

/-- What a rejected promise or a thrown exception carries: its message. -/
abbrev Error := Str

/-- Decimal text of a `bigint` or number that is a natural number
(`toString()`, or its use inside a template literal). -/
def decimal (n : Nat) : Str := Nat.toDigits 10 n

/-- Functions of the JavaScript and ethers libraries that the script calls
and whose results it only passes on. -/
structure Lib where
  /-- The call `hre.ethers.formatEther(balance)`. -/
  formatEther : Nat → Str
  /-- The call `JSON.stringify(deploymentInfo, null, 2)`. -/
  jsonStringify : DeploymentInfo → Str
  /-- The method `String.prototype.toLowerCase`. -/
  toLowerCase : Str → Str

/-- The chain as the script sees it through Hardhat and ethers.  Every query
may be rejected; a query is answered the same way each time it is asked in
one run.  A signer is represented by the address its `getAddress()` gives. -/
structure Chain where
  /-- The value `hre.network.name`. -/
  networkName : Str
  /-- The value `(await hre.ethers.provider.getNetwork()).chainId`. -/
  getNetwork : Except Error Nat
  /-- The call `hre.ethers.getSigners()`. -/
  getSigners : Except Error (List Str)
  /-- The call `hre.ethers.provider.getBalance(address)`, in wei. -/
  getBalance : Str → Except Error Nat
  /-- Lines 37-41: `getContractFactory`, `deploy()`, `waitForDeployment()` and
  `getAddress()`; the address of the new contract. -/
  deploy : Except Error Str
  /-- The call `hre.ethers.provider.getCode(address)`. -/
  getCode : Str → Except Error Str
  /-- The accessor `bookingPayment.PLATFORM_WALLET()`. -/
  PLATFORM_WALLET : Except Error Str
  /-- The accessor `bookingPayment.PLATFORM_FEE_PERCENT()`. -/
  PLATFORM_FEE_PERCENT : Except Error Nat
  /-- The accessor `bookingPayment.admin()`. -/
  admin : Except Error Str
  /-- The call `hre.ethers.provider.getBlockNumber()`. -/
  getBlockNumber : Except Error Nat

/-- The readings of the clock in one run. -/
structure Clock where
  /-- The value of `new Date().toISOString()` at line 109. -/
  timestamp : Str
  /-- The value of `Date.now()` at line 155. -/
  now : Nat
  /-- The value of `new Date().toISOString()` at line 160. -/
  docDate : Str

/-- The file system: the text of each regular file, the directories, and,
for each path, the error that an attempt to read it, to write it or to create
a directory there is going to throw, if any. -/
structure FileSystem where
  file : Str → Option Str
  dir : Str → Bool
  readError : Str → Option Error
  writeError : Str → Option Error
  mkdirError : Str → Option Error

/-- The two `console.warn` calls of the script. -/
inductive Warning where
  | adminMismatch (admin deployerAddress : Str)
  | propertiesNotUpdated (message : Error)
deriving DecidableEq

/-- What the script does to the outside, in order: the calls of `fs` it makes
and the warnings it prints. -/
inductive Event where
  | existsSync (path : Str)
  | mkdirSync (path : Str)
  | readFileSync (path : Str)
  | writeFileSync (path : Str) (data : Str)
  | warn (w : Warning)
deriving DecidableEq

/-- The state threaded through a run: the file system and the events so far. -/
structure Sys where
  fs : FileSystem
  trace : List Event

/-- The call `fs.existsSync(path)`. -/
def existsSync (path : Str) (s : Sys) : Bool × Sys :=
  ((s.fs.file path).isSome || s.fs.dir path, { s with trace := s.trace ++ [Event.existsSync path] })

/-- The call `fs.mkdirSync(path, { recursive: true })`. -/
def mkdirSync (path : Str) (s : Sys) : Except Error Unit × Sys :=
  match s.fs.mkdirError path with
  | none =>
    (.ok (), { fs := { s.fs with dir := Function.update s.fs.dir path true },
               trace := s.trace ++ [Event.mkdirSync path] })
  | some e => (.error e, { s with trace := s.trace ++ [Event.mkdirSync path] })

/-- The call `fs.readFileSync(path, "utf8")`; it throws when there is no
regular file at the path. -/
def readFileSync (path : Str) (s : Sys) : Except Error Str × Sys :=
  let s1 : Sys := { s with trace := s.trace ++ [Event.readFileSync path] }
  match s.fs.readError path with
  | some e => (.error e, s1)
  | none =>
    match s.fs.file path with
    | some text => (.ok text, s1)
    | none => (.error "no regular file to read".toList, s1)

/-- The call `fs.writeFileSync(path, data)`. -/
def writeFileSync (path data : Str) (s : Sys) : Except Error Unit × Sys :=
  match s.fs.writeError path with
  | none =>
    (.ok (), { fs := { s.fs with file := Function.update s.fs.file path (some data) },
               trace := s.trace ++ [Event.writeFileSync path data] })
  | some e => (.error e, { s with trace := s.trace ++ [Event.writeFileSync path data] })

/-- The call `console.warn`. -/
def warn (w : Warning) (s : Sys) : Sys := { s with trace := s.trace ++ [Event.warn w] }

/-- The function `path.join`, as gluing the segments with `/`; the
normalisation `path.join` also does is left out. -/
def pathJoin (segments : List Str) : Str := "/".toList.intercalate segments

/-- Line 145. -/
def deploymentsDir (dirname : Str) : Str :=
  pathJoin [dirname, "..".toList, "deployments".toList]

/-- Line 150. -/
def deploymentFile (dirname network : Str) : Str :=
  pathJoin [deploymentsDir dirname, "booking-payment-".toList ++ network ++ ".json".toList]

/-- Line 155. -/
def docFile (dirname network : Str) (now : Nat) : Str :=
  pathJoin [deploymentsDir dirname,
    "DEPLOYMENT-".toList ++ network ++ "-".toList ++ decimal now ++ ".md".toList]

/-- Line 234. -/
def appPropertiesPath (dirname : Str) : Str :=
  pathJoin [dirname, "..".toList, "..".toList, "payment-service".toList, "src".toList,
    "main".toList, "resources".toList, "application.properties".toList]

/-! ## The deploy script's `main` -/

/-- What lines 20-58 learn from the chain. -/
structure Deployed where
  chainId : Nat
  deployerAddress : Str
  contractAddress : Str
  platformWallet : Str
  platformFee : Nat
  admin : Str

/-- Lines 20-58: network, deployer, deployment, the check that there is code
at the new address, and the three accessors.  With no signer, `deployer` is
`undefined` and `deployer.getAddress()` throws. -/
def deployAndVerify (chain : Chain) : Except Error Deployed := do
  let chainId ← chain.getNetwork
  let signers ← chain.getSigners
  let deployerAddress ← match signers.head? with
    | some deployer => pure deployer
    | none => throw "Cannot read properties of undefined (reading getAddress)".toList
  let _deployerBalance ← chain.getBalance deployerAddress
  let contractAddress ← chain.deploy
  let code ← chain.getCode contractAddress
  if code = "0x".toList then
    throw "❌ Contract deployment failed - no code at address!".toList
  else
    let platformWallet ← chain.PLATFORM_WALLET
    let platformFee ← chain.PLATFORM_FEE_PERCENT
    let admin ← chain.admin
    pure { chainId, deployerAddress, contractAddress, platformWallet, platformFee, admin }

/-- Lines 65-70: the comparison of admin and deployer. -/
def checkAdmin (lib : Lib) (d : Deployed) (s : Sys) : Sys :=
  if lib.toLowerCase d.admin ≠ lib.toLowerCase d.deployerAddress then
    warn (Warning.adminMismatch d.admin d.deployerAddress) s
  else s

/-- Lines 82-97: the object pushed for account `i`. -/
def accountEntry (lib : Lib) (i : Nat) (address : Str) (balance : Nat) : AccountInfo :=
  if i = 0 then
    { index := i, address := address, balance := lib.formatEther balance, isAdmin := true,
      note := some "This is the admin account - use this private key in application.properties".toList }
  else
    { index := i, address := address, balance := lib.formatEther balance, isAdmin := false,
      note := none }

/-- The body of the loop of lines 76-98 from index `i` on, over the accounts
still to visit. -/
def accountsLoop (lib : Lib) (chain : Chain) : Nat → List Str → Except Error (List AccountInfo)
  | _, [] => pure []
  | i, address :: rest => do
    let balance ← chain.getBalance address
    let later ← accountsLoop lib chain (i + 1) rest
    pure (accountEntry lib i address balance :: later)

/-- Lines 72-99: `accountsInfo`.  The loop runs over the indices below
`Math.min(5, accounts.length)`. -/
def accountsInfo (lib : Lib) (chain : Chain) : Except Error (List AccountInfo) :=
  if chain.networkName = "localhost".toList ∨ chain.networkName = "hardhat".toList then do
    let accounts ← chain.getSigners
    accountsLoop lib chain 0 (accounts.take (min 5 accounts.length))
  else pure []

/-- Lines 101-142: `deploymentInfo`. -/
def deploymentInfo (network : Str) (clock : Clock) (d : Deployed) (accounts : List AccountInfo)
    (blockNumber : Nat) : DeploymentInfo where
  contract := {
    name := "BookingPaymentContract".toList
    address := d.contractAddress
    network := network
    chainId := decimal d.chainId
    deployer := d.deployerAddress
    timestamp := clock.timestamp
    blockNumber := blockNumber }
  configuration := {
    platformWallet := d.platformWallet
    platformFeePercent := decimal d.platformFee
    admin := d.admin }
  accounts := accounts
  functions := functions

/-- The expression `list.map(f => ...).join("\n")` of lines 196-204: one
bullet with the entry between backticks for each entry. -/
def bulletList (entries : List Str) : Str :=
  "\n".toList.intercalate (entries.map fun f => "- `".toList ++ f ++ "`".toList)

/-- Lines 156-228: the text of the documentation file. -/
def documentation (network : Str) (clock : Clock) (d : Deployed) : Str :=
  List.flatten [
    "# BookingPaymentContract Deployment\n\n## Deployment Information\n\n**Date:** ".toList,
    clock.docDate,
    "\n**Network:** ".toList, network,
    "\n**Chain ID:** ".toList, decimal d.chainId,
    "\n\n## Contract Address\n\n```\n".toList, d.contractAddress,
    "\n```\n\n## Configuration\n\n- **Platform Wallet:** ".toList, d.platformWallet,
    "\n- **Platform Fee:** ".toList, decimal d.platformFee,
    "%\n- **Admin:** ".toList, d.admin,
    "\n- **Deployer:** ".toList, d.deployerAddress,
    "\n\n## Application Properties Configuration\n\nAdd/Update these values in ".toList,
    "`payment-service/src/main/resources/application.properties`:\n\n```properties\n".toList,
    "# Blockchain Configuration\napp.web3.chain-id=".toList, decimal d.chainId,
    "\napp.web3.rpc-url=".toList,
    (if network = "localhost".toList then "http://127.0.0.1:8545".toList
     else "https://arb1.arbitrum.io/rpc".toList),
    "\napp.web3.contract-address=".toList, d.contractAddress,
    "\napp.web3.private-key=0xac0974bec39a17e36ba4a6b4d238ff944bacb478cbed5efcae784d7bf4f2ff80".toList,
    "\n```\n\n**⚠️ IMPORTANT:** The private key above is for Hardhat local network ONLY. \n".toList,
    "**NEVER use this in production!**\n\n## Contract Functions\n\n### Public Functions\n\n".toList,
    bulletList functions.public,
    "\n\n### Admin Functions\n\n".toList, bulletList functions.admin,
    "\n\n### Constants\n\n".toList, bulletList functions.constants,
    "\n\n## Testing\n\nTo test the contract, use Hardhat console:\n\n```bash\n".toList,
    "npx hardhat console --network ".toList, network,
    "\n```\n\nThen:\n\n```javascript\n".toList,
    "const contract = await ethers.getContractAt(\"BookingPaymentContract\", \"".toList,
    d.contractAddress,
    "\");\nawait contract.PLATFORM_WALLET();\nawait contract.admin();\n".toList,
    "await contract.getContractBalance();\n```\n\n## Next Steps\n\n".toList,
    "1. Update `application.properties` with the contract address above\n".toList,
    "2. Restart payment-service\n3. Test the contract using the API endpoints\n".toList]

/-- Lines 144-231: the deployments directory is created when missing, then
the record and the documentation are written.  A call that throws ends the
step there. -/
def saveRecord (lib : Lib) (dirname network : Str) (clock : Clock) (d : Deployed)
    (info : DeploymentInfo) (s : Sys) : Except Error Unit × Sys :=
  let found := existsSync (deploymentsDir dirname) s
  let made := if found.1 then (Except.ok (), found.2) else mkdirSync (deploymentsDir dirname) found.2
  match made with
  | (.error e, s2) => (.error e, s2)
  | (.ok (), s2) =>
    match writeFileSync (deploymentFile dirname network) (lib.jsonStringify info) s2 with
    | (.error e, s3) => (.error e, s3)
    | (.ok (), s3) =>
      writeFileSync (docFile dirname network clock.now) (documentation network clock d) s3

/-- Lines 233-269: the attempt to update application.properties.  Whatever
is thrown between the read and the write is caught and turned into a
warning. -/
def updateProperties (dirname contractAddress : Str) (chainId : Nat) (network : Str)
    (s : Sys) : Sys :=
  let found := existsSync (appPropertiesPath dirname) s
  if found.1 then
    match readFileSync (appPropertiesPath dirname) found.2 with
    | (.error e, s2) => warn (Warning.propertiesNotUpdated e) s2
    | (.ok properties, s2) =>
      match writeFileSync (appPropertiesPath dirname)
          (patchProperties properties contractAddress (decimal chainId) network) s2 with
      | (.error e, s3) => warn (Warning.propertiesNotUpdated e) s3
      | (.ok (), s3) => s3
  else found.2

/-- How the process ends and what it has done by then. -/
structure Outcome where
  exitCode : Nat
  sys : Sys

/-- The script: `main()` followed by `.then(() => process.exit(0))` and
`.catch(... process.exit(1))` (lines 15-294). -/
def main (lib : Lib) (dirname : Str) (clock : Clock) (chain : Chain) (s : Sys) : Outcome :=
  match deployAndVerify chain with
  | .error _ => { exitCode := 1, sys := s }
  | .ok d =>
    let s1 := checkAdmin lib d s
    match accountsInfo lib chain with
    | .error _ => { exitCode := 1, sys := s1 }
    | .ok accounts =>
      match chain.getBlockNumber with
      | .error _ => { exitCode := 1, sys := s1 }
      | .ok blockNumber =>
        let info := deploymentInfo chain.networkName clock d accounts blockNumber
        match saveRecord lib dirname chain.networkName clock d info s1 with
        | (.error _, s2) => { exitCode := 1, sys := s2 }
        | (.ok (), s2) =>
          { exitCode := 0,
            sys := updateProperties dirname d.contractAddress d.chainId chain.networkName s2 }

/-! ## Notions used to state the properties -/

/-- No character of `r` is a line terminator. -/
def AllDot (r : Str) : Prop := ∀ c ∈ r, dot c = true

instance (r : Str) : Decidable (AllDot r) :=
  inferInstanceAs (Decidable (∀ c ∈ r, dot c = true))

/-- The text `a` is empty or starts with a line terminator. -/
def HeadTerm (a : Str) : Prop := ∀ c ∈ a.head?, dot c = false

instance (a : Str) : Decidable (HeadTerm a) :=
  inferInstanceAs (Decidable (∀ c ∈ a.head?, dot c = false))

/-- The key does not occur in `b ++ key` before position `b.length`: the
occurrence right after `b` is the leftmost one. -/
def FirstAt (key b : Str) : Prop := ¬ key <:+: b ++ key.dropLast

instance (key b : Str) : Decidable (FirstAt key b) :=
  inferInstanceAs (Decidable (¬ key <:+: b ++ key.dropLast))

/-- The three keys `main` patches, in the order of the replacements. -/
def patchedKeys : List Str := [contractAddressKey, chainIdKey, rpcUrlKey]

/-- The lines of a text as the regular expressions see them: the stretches
between line terminators (LF, CR, U+2028, U+2029). -/
def regexLines (t : Str) : List Str := t.splitOnP isLineTerminator

/-- At most one of the patched keys occurs in the line. -/
def AtMostOneKey (line : Str) : Prop :=
  ∀ k ∈ patchedKeys, ∀ k2 ∈ patchedKeys, k <:+: line → k2 <:+: line → k = k2

instance (line : Str) : Decidable (AtMostOneKey line) :=
  inferInstanceAs (Decidable (∀ k ∈ patchedKeys, ∀ k2 ∈ patchedKeys,
    k <:+: line → k2 <:+: line → k = k2))

/-- A value with no dollar sign and no line terminator in which none of the
patched keys occurs; every hexadecimal address and every decimal number is
one. -/
def PlainValue (v : Str) : Prop := '$' ∉ v ∧ AllDot v ∧ ∀ k ∈ patchedKeys, ¬ k <:+: v

instance (v : Str) : Decidable (PlainValue v) :=
  inferInstanceAs (Decidable ('$' ∉ v ∧ AllDot v ∧ ∀ k ∈ patchedKeys, ¬ k <:+: v))

/-- The state `s` with the events `earlier` put in front of its trace. -/
def withEarlier (earlier : List Event) (s : Sys) : Sys :=
  { fs := s.fs, trace := earlier ++ s.trace }

/-- The library `lib` with a lower-casing that sends every text to the empty
text, so that the comparison of lines 65-70 never finds a difference. -/
def neverDiffering (lib : Lib) : Lib := { lib with toLowerCase := fun _ => [] }

/-! ## A sample run, used to show that the hypotheses of the theorems can be met -/

/-- Library functions for the sample run. -/
def sampleLib : Lib where
  formatEther := decimal
  jsonStringify := fun info => info.contract.address ++ info.configuration.admin
  toLowerCase := fun t => t.map Char.toLower

/-- Directory of the script in the sample run. -/
def sampleDirname : Str := "/repo/scripts".toList

/-- Clock of the sample run. -/
def sampleClock : Clock where
  timestamp := "2024-01-01T00:00:00.000Z".toList
  now := 1704067200000
  docDate := "2024-01-01T00:00:00.001Z".toList

/-- A chain on which everything succeeds: two signers, a contract with the
given code, network `localhost`. -/
def sampleChain (code admin : Str) : Chain where
  networkName := "localhost".toList
  getNetwork := .ok 31337
  getSigners := .ok ["0xf39F".toList, "0x7099".toList]
  getBalance := fun _ => .ok 10000
  deploy := .ok "0x5FbD".toList
  getCode := fun _ => .ok code
  PLATFORM_WALLET := .ok "0xABC".toList
  PLATFORM_FEE_PERCENT := .ok 5
  admin := .ok admin
  getBlockNumber := .ok 1

/-- A file system where everything is allowed and only the given text is at
the path of application.properties; `present` says whether it is there. -/
def sampleFs (present : Bool) (properties : Str) : FileSystem where
  file := fun p => if present ∧ p = appPropertiesPath sampleDirname then some properties else none
  dir := fun _ => false
  readError := fun _ => none
  writeError := fun _ => none
  mkdirError := fun _ => none

/-- Start state of the sample run. -/
def sampleSys (present : Bool) (properties : Str) : Sys where
  fs := sampleFs present properties
  trace := []

/-- What lines 20-58 learn in the sample run. -/
def sampleDeployed (admin : Str) : Deployed where
  chainId := 31337
  deployerAddress := "0xf39F".toList
  contractAddress := "0x5FbD".toList
  platformWallet := "0xABC".toList
  platformFee := 5
  admin := admin

end DeployScript

/-! ## The script `get-accounts.js` -/

namespace GetAccounts

open DeployScript (Str Error decimal)

/-- The parts of ethers the script uses.  `Node` is the type of the
`HDNodeWallet` objects; both `fromPhrase` and `derivePath` may throw. -/
structure Ethers (Node : Type) where
  /-- The call `ethers.HDNodeWallet.fromPhrase(mnemonic)`. -/
  fromPhrase : Str → Except Error Node
  /-- The call `hdNode.derivePath(path)`. -/
  derivePath : Node → Str → Except Error Node
  /-- The property `wallet.address`. -/
  address : Node → Str
  /-- The property `wallet.privateKey`. -/
  privateKey : Node → Str
  /-- The call `ethers.provider.getBalance(address)`, in wei. -/
  getBalance : Str → Except Error Nat
  /-- The call `ethers.formatEther(balance)`. -/
  formatEther : Nat → Str

/-- Line 8. -/
def mnemonic : Str := "test test test test test test test test test test test junk".toList

/-- The template literal of line 13 for index `i`. -/
def accountPath (i : Nat) : Str := "m/44'/60'/0'/0/".toList ++ decimal i

/-- What lines 19-22 print for one account. -/
structure Listed where
  index : Nat
  address : Str
  privateKey : Str
  balanceInEth : Str
deriving DecidableEq

/-- The loop of lines 12-24 from index `i` on with `remaining` rounds to go:
the accounts printed, and whether a call threw. -/
def loop {Node : Type} (E : Ethers Node) (hdNode : Node) :
    Nat → Nat → List Listed × Except Error Unit
  | _, 0 => ([], .ok ())
  | i, remaining + 1 =>
    match E.derivePath hdNode (accountPath i) with
    | .error e => ([], .error e)
    | .ok wallet =>
      match E.getBalance (E.address wallet) with
      | .error e => ([], .error e)
      | .ok balance =>
        let rest := loop E hdNode (i + 1) remaining
        ({ index := i, address := E.address wallet, privateKey := E.privateKey wallet,
           balanceInEth := E.formatEther balance } :: rest.1, rest.2)

/-- How the process ends and what it has printed by then. -/
structure Outcome where
  exitCode : Nat
  listed : List Listed

/-- The script: `main()` followed by `.then(() => process.exit(0))` and
`.catch(... process.exit(1))`. -/
def main {Node : Type} (E : Ethers Node) : Outcome :=
  match E.fromPhrase mnemonic with
  | .error _ => { exitCode := 1, listed := [] }
  | .ok hdNode =>
    match loop E hdNode 0 10 with
    | (listed, .ok ()) => { exitCode := 0, listed := listed }
    | (listed, .error _) => { exitCode := 1, listed := listed }

end GetAccounts

namespace DeployScript

/-! ## Facts about the regular-expression match -/

theorem takeWhile_dot_of_headTerm {a : Str} (ha : HeadTerm a) : a.takeWhile dot = [] := by
  cases a with
  | nil => rfl
  | cons c cs =>
    have : dot c = false := ha c (by simp)
    simp [List.takeWhile_cons, this]

theorem dropWhile_dot_of_headTerm {a : Str} (ha : HeadTerm a) : a.dropWhile dot = a := by
  cases a with
  | nil => rfl
  | cons c cs =>
    have : dot c = false := ha c (by simp)
    simp [List.dropWhile_cons, this]

theorem headTerm_dropWhile (s : Str) : HeadTerm (s.dropWhile dot) := by
  intro c hc
  have h := List.head?_dropWhile_not dot s
  rw [Option.mem_def] at hc
  rw [hc] at h
  simpa using h

theorem allDot_takeWhile (s : Str) : AllDot (s.takeWhile dot) :=
  fun _ hc => List.mem_takeWhile_imp hc

theorem matchAt_append (key r a : Str) (hr : AllDot r) (ha : HeadTerm a) :
    matchAt key (key ++ (r ++ a)) = some (key ++ r, a) := by
  have hp : key.isPrefixOf (key ++ (r ++ a)) = true := by
    rw [List.isPrefixOf_iff_prefix]; exact List.prefix_append _ _
  unfold matchAt
  rw [if_pos hp, List.drop_left, List.takeWhile_append_of_pos hr,
    List.dropWhile_append_of_pos hr, takeWhile_dot_of_headTerm ha, dropWhile_dot_of_headTerm ha]
  simp

theorem matchAt_some {key s m a : Str} (h : matchAt key s = some (m, a)) :
    ∃ r, m = key ++ r ∧ s = key ++ (r ++ a) ∧ AllDot r ∧ HeadTerm a := by
  unfold matchAt at h
  split at h
  · rename_i hp
    rw [List.isPrefixOf_iff_prefix] at hp
    obtain ⟨rest, rfl⟩ := hp
    rw [List.drop_left] at h
    simp only [Option.some.injEq, Prod.mk.injEq] at h
    refine ⟨rest.takeWhile dot, h.1.symm, ?_, allDot_takeWhile _, ?_⟩
    · rw [← h.2, List.takeWhile_append_dropWhile]
    · rw [← h.2]; exact headTerm_dropWhile _
  · exact absurd h (by simp)

theorem matchAt_none {key s : Str} : matchAt key s = none ↔ ¬ key <+: s := by
  unfold matchAt
  rw [← List.isPrefixOf_iff_prefix]
  split <;> simp_all

theorem dropLast_pfx (key : Str) : key.dropLast <+: key := by
  rcases List.eq_nil_or_concat key with h | ⟨l, x, h⟩
  · subst h; simp
  · subst h; simp

theorem length_dropLast_lt {key : Str} (hk : key ≠ []) : key.dropLast.length < key.length := by
  have := List.length_pos.mpr hk
  simp only [List.length_dropLast]; omega

theorem firstAt_nil {key : Str} (hk : key ≠ []) : FirstAt key [] := by
  intro h
  have h1 := h.length_le
  have h2 := length_dropLast_lt hk
  simp only [List.nil_append] at h1
  omega

theorem firstAt_of_cons {key b : Str} {c : Char} (h : FirstAt key (c :: b)) : FirstAt key b := by
  intro h1
  apply h
  rw [List.cons_append, List.infix_cons_iff]
  exact Or.inr h1

theorem not_prefix_of_firstAt_cons {key b : Str} {c : Char} (hk : key ≠ []) (h : FirstAt key (c :: b))
    (rest : Str) : ¬ key <+: (c :: b) ++ (key ++ rest) := by
  intro hp
  apply h
  have h2 : (c :: b) ++ key.dropLast <+: (c :: b) ++ (key ++ rest) := by
    rw [List.prefix_append_right_inj]
    exact (dropLast_pfx key).trans (List.prefix_append _ _)
  have hl : key.length ≤ ((c :: b) ++ key.dropLast).length := by
    have := List.length_pos.mpr hk
    simp only [List.length_append, List.length_cons, List.length_dropLast]; omega
  exact (List.prefix_of_prefix_length_le hp h2 hl).isInfix

theorem regExpExec_some {key : Str} (hk : key ≠ []) :
    ∀ {s b m a : Str}, regExpExec key s = some (b, m, a) →
      ∃ r, m = key ++ r ∧ s = b ++ (key ++ (r ++ a)) ∧ AllDot r ∧ HeadTerm a ∧ FirstAt key b := by
  intro s
  induction s with
  | nil =>
    intro b m a h
    have hn : matchAt key [] = none := by
      rw [matchAt_none]; intro hp; exact hk (List.prefix_nil.mp hp)
    simp [regExpExec, hn] at h
  | cons c cs ih =>
    intro b m a h
    cases hm : matchAt key (c :: cs) with
    | some r0 =>
      obtain ⟨m0, a0⟩ := r0
      simp only [regExpExec, hm, Option.some.injEq, Prod.mk.injEq] at h
      obtain ⟨rfl, rfl, rfl⟩ := h
      obtain ⟨r, h1, h2, h3, h4⟩ := matchAt_some hm
      exact ⟨r, h1, by simpa using h2, h3, h4, firstAt_nil hk⟩
    | none =>
      simp only [regExpExec, hm, Option.map_eq_some', Prod.mk.injEq] at h
      obtain ⟨⟨b1, m1, a1⟩, h1, rfl, rfl, rfl⟩ := h
      obtain ⟨r, e1, e2, h3, h4, h5⟩ := ih h1
      refine ⟨r, e1, by simp [e2], h3, h4, ?_⟩
      intro hi
      simp only [] at hi
      rw [List.cons_append, List.infix_cons_iff] at hi
      rcases hi with hi | hi
      · apply matchAt_none.mp hm
        rw [e2]
        refine hi.trans ?_
        have h6 : (c :: b1) ++ key.dropLast <+: (c :: b1) ++ (key ++ (r ++ a1)) := by
          rw [List.prefix_append_right_inj]
          exact (dropLast_pfx key).trans (List.prefix_append _ _)
        simpa using h6
      · exact h5 hi

theorem regExpExec_of_firstAt {key : Str} (hk : key ≠ []) {r a : Str} (hr : AllDot r)
    (ha : HeadTerm a) : ∀ {b : Str}, FirstAt key b →
      regExpExec key (b ++ (key ++ (r ++ a))) = some (b, key ++ r, a) := by
  intro b
  induction b with
  | nil =>
    intro _
    have hm := matchAt_append key r a hr ha
    cases hks : key ++ (r ++ a) with
    | nil => simp [hk] at hks
    | cons x xs =>
      rw [hks] at hm
      simp [regExpExec, hm]
  | cons c b ih =>
    intro hf
    have hn : matchAt key (c :: (b ++ (key ++ (r ++ a)))) = none :=
      matchAt_none.mpr (not_prefix_of_firstAt_cons hk hf _)
    simp [regExpExec, hn, ih (firstAt_of_cons hf)]

theorem regExpExec_none {key : Str} (hk : key ≠ []) :
    ∀ {s : Str}, regExpExec key s = none ↔ ¬ key <:+: s := by
  intro s
  induction s with
  | nil =>
    have hn : matchAt key [] = none := by
      rw [matchAt_none]; intro hp; exact hk (List.prefix_nil.mp hp)
    simp [regExpExec, hn, hk]
  | cons c cs ih =>
    cases hm : matchAt key (c :: cs) with
    | some r0 =>
      have hp : key <+: c :: cs := by
        by_contra hc
        rw [matchAt_none.mpr hc] at hm
        exact absurd hm (by simp)
      simp [regExpExec, hm, hp.isInfix]
    | none =>
      have hp := matchAt_none.mp hm
      simp [regExpExec, hm, ih, List.infix_cons_iff, hp]

/-! ## Facts about `replace` -/

theorem getSubstitution_literal (m b a : Str) :
    ∀ {t : Str}, '$' ∉ t → getSubstitution m b a t = t := by
  intro t
  induction t with
  | nil => intro _; rfl
  | cons c cs ih =>
    intro h
    have hc : c ≠ '$' := fun e => h (by simp [e])
    have hcs : '$' ∉ cs := fun e => h (List.mem_cons_of_mem _ e)
    rw [getSubstitution.eq_def]
    simp only [if_neg hc, ih hcs]

theorem replace_of_absent {key : Str} (hk : key ≠ []) {s : Str} (tpl : Str)
    (h : ¬ key <:+: s) : replace s key tpl = s := by
  simp [replace, (regExpExec_none hk).mpr h]

theorem replace_of_firstAt {key : Str} (hk : key ≠ []) {tpl : Str} (ht : '$' ∉ tpl)
    {b r a : Str} (hb : FirstAt key b) (hr : AllDot r) (ha : HeadTerm a) :
    replace (b ++ (key ++ (r ++ a))) key tpl = b ++ (tpl ++ a) := by
  simp [replace, regExpExec_of_firstAt hk hr ha hb, getSubstitution_literal _ _ _ ht]

/-- The two cases of a replacement with a template free of `$`. -/
theorem replace_cases {key : Str} (hk : key ≠ []) {tpl : Str} (ht : '$' ∉ tpl) (s : Str) :
    (¬ key <:+: s ∧ replace s key tpl = s) ∨
    ∃ b r a, s = b ++ (key ++ (r ++ a)) ∧ AllDot r ∧ HeadTerm a ∧ FirstAt key b ∧
      replace s key tpl = b ++ (tpl ++ a) := by
  cases h : regExpExec key s with
  | none =>
    exact Or.inl ⟨(regExpExec_none hk).mp h, by simp [replace, h]⟩
  | some x =>
    obtain ⟨b, m, a⟩ := x
    obtain ⟨r, _, e2, h3, h4, h5⟩ := regExpExec_some hk h
    exact Or.inr ⟨b, r, a, e2, h3, h4, h5, by
      simp [replace, h, getSubstitution_literal _ _ _ ht]⟩

/-! ## The RPC endpoint is only patched on `localhost` -/

theorem contractAddressKey_ne_nil : contractAddressKey ≠ [] := by decide

theorem chainIdKey_ne_nil : chainIdKey ≠ [] := by decide

theorem rpcUrlKey_ne_nil : rpcUrlKey ≠ [] := by decide

theorem patchedKeys_ne_nil {key : Str} (h : key ∈ patchedKeys) : key ≠ [] := by
  simp only [patchedKeys, List.mem_cons, List.mem_singleton, List.not_mem_nil, or_false] at h
  rcases h with rfl | rfl | rfl
  exacts [contractAddressKey_ne_nil, chainIdKey_ne_nil, rpcUrlKey_ne_nil]

theorem patchedKeys_no_dollar {key : Str} (h : key ∈ patchedKeys) : '$' ∉ key := by
  simp only [patchedKeys, List.mem_cons, List.mem_singleton, List.not_mem_nil, or_false] at h
  rcases h with rfl | rfl | rfl <;> decide

theorem patchedKeys_allDot {key : Str} (h : key ∈ patchedKeys) : AllDot key := by
  simp only [patchedKeys, List.mem_cons, List.mem_singleton, List.not_mem_nil, or_false] at h
  rcases h with rfl | rfl | rfl <;> (unfold AllDot; decide)

theorem no_dollar_append {key v : Str} (hk : '$' ∉ key) (hv : '$' ∉ v) : '$' ∉ key ++ v := by
  simp [hk, hv]

/-- C9. On a network other than `localhost` (so also on `hardhat`) the patch
step gives exactly what the contract-address and chain-id replacements give,
whatever `app.web3.rpc-url` line the text has.  On `localhost`, when
`app.web3.rpc-url=` occurs in the text left by those two replacements, its
leftmost occurrence and the rest of that line become
`app.web3.rpc-url=http://127.0.0.1:8545` and the text before and after stays;
when it does not occur, the text is left as it is. -/
theorem rpc_url_reconciled_only_on_localhost (properties contractAddress chainId network : Str) :
    (network ≠ "localhost".toList →
      patchProperties properties contractAddress chainId network =
        replace (replace properties contractAddressKey (contractAddressKey ++ contractAddress))
          chainIdKey (chainIdKey ++ chainId)) ∧
    (network = "localhost".toList →
      (∀ b r a, replace (replace properties contractAddressKey
            (contractAddressKey ++ contractAddress)) chainIdKey (chainIdKey ++ chainId)
          = b ++ (rpcUrlKey ++ (r ++ a)) →
        FirstAt rpcUrlKey b → AllDot r → HeadTerm a →
        patchProperties properties contractAddress chainId network =
          b ++ (rpcUrlKey ++ (localRpcUrl ++ a))) ∧
      (¬ rpcUrlKey <:+: replace (replace properties contractAddressKey
            (contractAddressKey ++ contractAddress)) chainIdKey (chainIdKey ++ chainId) →
        patchProperties properties contractAddress chainId network =
          replace (replace properties contractAddressKey
            (contractAddressKey ++ contractAddress)) chainIdKey (chainIdKey ++ chainId))) := by
  refine ⟨?_, ?_⟩
  · intro h
    simp only [patchProperties, if_neg h]
  · intro h
    simp only [patchProperties, if_pos h]
    refine ⟨?_, ?_⟩
    · intro b r a hp hb hr ha
      rw [hp, replace_of_firstAt rpcUrlKey_ne_nil (by decide) hb hr ha]
      simp
    · intro hn
      exact replace_of_absent rpcUrlKey_ne_nil _ hn

/-- C9 on `hardhat` and on `localhost` for a text with an RPC line. -/
theorem rpc_url_witness :
    patchProperties "app.web3.rpc-url=http://old:1\nx=1".toList "0x123".toList "31337".toList
        "hardhat".toList = "app.web3.rpc-url=http://old:1\nx=1".toList ∧
    patchProperties "app.web3.rpc-url=http://old:1\nx=1".toList "0x123".toList "31337".toList
        "localhost".toList = "app.web3.rpc-url=http://127.0.0.1:8545\nx=1".toList :=
  ⟨((rpc_url_reconciled_only_on_localhost "app.web3.rpc-url=http://old:1\nx=1".toList
      "0x123".toList "31337".toList "hardhat".toList).1 (by decide)).trans (by decide),
   (rpc_url_reconciled_only_on_localhost "app.web3.rpc-url=http://old:1\nx=1".toList
      "0x123".toList "31337".toList "localhost".toList).2 rfl |>.1 [] "http://old:1".toList
      "\nx=1".toList (by decide) (by unfold FirstAt; decide) (by unfold AllDot; decide)
      (by unfold HeadTerm; decide)⟩

/-! ## Lines of a text and a replacement inside one line -/

theorem localRpcUrl_allDot : AllDot localRpcUrl := by unfold AllDot; decide

theorem contractAddressKey_mem : contractAddressKey ∈ patchedKeys := by simp [patchedKeys]

theorem chainIdKey_mem : chainIdKey ∈ patchedKeys := by simp [patchedKeys]

theorem rpcUrlKey_mem : rpcUrlKey ∈ patchedKeys := by simp [patchedKeys]

/-- Induction over a text line by line: a text is a single line, or a line,
a line terminator and a text. -/
theorem line_induction {P : Str → Prop} (single : ∀ l, AllDot l → P l)
    (step : ∀ l c t, AllDot l → dot c = false → P t → P (l ++ c :: t)) : ∀ t, P t := by
  suffices h : ∀ (n : Nat) (t : Str), t.length = n → P t from fun t => h _ t rfl
  intro n
  induction n using Nat.strong_induction_on with
  | _ n ih =>
    intro t hn
    have hsplit := List.takeWhile_append_dropWhile dot t
    cases hd : t.dropWhile dot with
    | nil =>
      rw [hd, List.append_nil] at hsplit
      rw [← hsplit]
      exact single _ (allDot_takeWhile t)
    | cons c rest =>
      have hc : dot c = false := by
        have := headTerm_dropWhile t
        rw [hd] at this
        exact this c (by simp)
      rw [hd] at hsplit
      rw [← hsplit]
      refine step _ c rest (allDot_takeWhile t) hc (ih rest.length ?_ rest rfl)
      rw [← hn, ← hsplit]
      simp only [List.length_append, List.length_cons]
      omega

/-- A key without the character `c` that occurs in `x ++ c :: y` occurs in
`x` or in `y`. -/
theorem infix_of_infix_append_cons {key : Str} {c : Char} (hc : c ∉ key) :
    ∀ {x y : Str}, key <:+: x ++ c :: y → key <:+: x ∨ key <:+: y := by
  intro x
  induction x with
  | nil =>
    intro y h
    rw [List.nil_append, List.infix_cons_iff] at h
    rcases h with h | h
    · cases key with
      | nil => exact Or.inl List.nil_infix
      | cons k ks =>
        obtain ⟨t, ht⟩ := h
        simp only [List.cons_append, List.cons.injEq] at ht
        exact absurd (by simp [ht.1]) hc
    · exact Or.inr h
  | cons d x ih =>
    intro y h
    rw [List.cons_append, List.infix_cons_iff] at h
    rcases h with h | h
    · by_cases hl : key.length ≤ (d :: x).length
      · have h2 : d :: x <+: d :: (x ++ c :: y) := by
          rw [← List.cons_append]; exact List.prefix_append _ _
        exact Or.inl (List.prefix_of_prefix_length_le h h2 hl).isInfix
      · have h2 : d :: x ++ [c] <+: d :: (x ++ c :: y) := by
          refine ⟨y, ?_⟩
          simp
        have h3 : d :: x ++ [c] <+: key := by
          refine List.prefix_of_prefix_length_le h2 h ?_
          simp only [List.length_append, List.length_cons, List.length_nil] at hl ⊢
          omega
        exact absurd (h3.subset (by simp)) hc
    · rcases ih h with h | h
      · exact Or.inl (List.infix_cons h)
      · exact Or.inr h

theorem not_mem_of_allDot {key : Str} (hkd : AllDot key) {c : Char} (hc : dot c = false) :
    c ∉ key := by
  intro h
  rw [hkd c h] at hc
  exact absurd hc (by simp)

theorem headTerm_cons {c : Char} (hc : dot c = false) (t : Str) : HeadTerm (c :: t) := by
  intro x hx
  simp only [List.head?_cons, Option.mem_def, Option.some.injEq] at hx
  rw [← hx]; exact hc

/-- A replacement in a line that holds the key: what stands before the
leftmost occurrence stays and the rest of the line becomes the template,
also when the line is followed by a line terminator and more text. -/
theorem replace_line {key : Str} (hk : key ≠ []) {tpl : Str} (ht : '$' ∉ tpl) {l : Str}
    (hl : AllDot l) (hin : key <:+: l) :
    ∃ b r, l = b ++ (key ++ r) ∧ FirstAt key b ∧ replace l key tpl = b ++ tpl ∧
      ∀ c t, dot c = false → replace (l ++ c :: t) key tpl = b ++ tpl ++ c :: t := by
  rcases replace_cases hk ht l with h | ⟨b, r, a, hs, hr, ha, hb, hrep⟩
  · exact absurd hin h.1
  · have hanil : a = [] := by
      cases a with
      | nil => rfl
      | cons x xs =>
        have h1 : dot x = false := ha x (by simp)
        have h2 : dot x = true := hl x (by rw [hs]; simp)
        rw [h1] at h2
        exact absurd h2 (by simp)
    subst hanil
    refine ⟨b, r, by simpa using hs, hb, by simpa using hrep, ?_⟩
    intro c t hc
    have : l ++ c :: t = b ++ (key ++ (r ++ c :: t)) := by rw [hs]; simp
    rw [this, replace_of_firstAt hk ht hb hr (headTerm_cons hc t)]
    simp

/-- A replacement passes over a line that does not hold the key. -/
theorem replace_skip_line {key : Str} (hk : key ≠ []) (hkd : AllDot key) {tpl : Str}
    (ht : '$' ∉ tpl) {l : Str} (hin : ¬ key <:+: l) {c : Char} (hc : dot c = false) (t : Str) :
    replace (l ++ c :: t) key tpl = l ++ c :: replace t key tpl := by
  have hck := not_mem_of_allDot hkd hc
  rcases replace_cases hk ht t with h | ⟨b, r, a, hs, hr, ha, hb, hrep⟩
  · rw [h.2]
    refine replace_of_absent hk tpl ?_
    intro h2
    rcases infix_of_infix_append_cons hck h2 with h3 | h3
    · exact hin h3
    · exact h.1 h3
  · have hf : FirstAt key (l ++ c :: b) := by
      intro h2
      have : (l ++ c :: b) ++ key.dropLast = l ++ c :: (b ++ key.dropLast) := by simp
      rw [this] at h2
      rcases infix_of_infix_append_cons hck h2 with h3 | h3
      · exact hin h3
      · exact hb h3
    have : l ++ c :: t = (l ++ c :: b) ++ (key ++ (r ++ a)) := by rw [hs]; simp
    rw [this, replace_of_firstAt hk ht hf hr ha, hrep]
    simp

theorem not_terminator_of_allDot {l : Str} (hl : AllDot l) :
    ∀ x ∈ l, ¬ isLineTerminator x = true := by
  intro x hx h
  have := hl x hx
  simp [dot, h] at this

theorem isLineTerminator_of_dot_false {c : Char} (hc : dot c = false) :
    isLineTerminator c = true := by
  simpa [dot] using hc

theorem regexLines_single {l : Str} (hl : AllDot l) : regexLines l = [l] :=
  List.splitOnP_eq_single _ _ (not_terminator_of_allDot hl)

theorem regexLines_cons {l : Str} (hl : AllDot l) {c : Char} (hc : dot c = false) (t : Str) :
    regexLines (l ++ c :: t) = l :: regexLines t :=
  List.splitOnP_first _ _ (not_terminator_of_allDot hl) c (isLineTerminator_of_dot_false hc) t

theorem allDot_append {a b : Str} (ha : AllDot a) (hb : AllDot b) : AllDot (a ++ b) := by
  intro c hc
  rcases List.mem_append.mp hc with h | h
  · exact ha c h
  · exact hb c h

theorem allDot_of_append_left {a b : Str} (h : AllDot (a ++ b)) : AllDot a :=
  fun c hc => h c (List.mem_append_left _ hc)

/-! ## The first line that holds a key -/

/-- C2, amended. For each of the three keys and a value with neither a dollar
sign nor a line terminator, on a text in which the key occurs: the lines of
the text are `L1`, then a line `x ++ key ++ r`, then `L2`, where no line of
`L1` holds the key and the key does not occur in that line before the end of
`x`; after the replacement the lines are `L1`, then `x ++ key ++ value`, then
`L2`.  So the first line that holds the key keeps what stands before the key
and reads `key=value` from there on; it is `key=value` in full exactly when
the key stands at the start of that line (`x` empty). -/
theorem first_key_line_patched (key value text : Str) (hkey : key ∈ patchedKeys)
    (h1 : '$' ∉ value) (h2 : AllDot value) (hin : key <:+: text) :
    ∃ L1 x r L2, regexLines text = L1 ++ (x ++ (key ++ r)) :: L2 ∧
      (∀ l ∈ L1, ¬ key <:+: l) ∧ FirstAt key x ∧
      regexLines (replace text key (key ++ value)) = L1 ++ (x ++ (key ++ value)) :: L2 := by
  have hk := patchedKeys_ne_nil hkey
  have hkd := patchedKeys_allDot hkey
  have ht : '$' ∉ key ++ value := no_dollar_append (patchedKeys_no_dollar hkey) h1
  revert hin
  refine line_induction (P := fun text => key <:+: text → ∃ L1 x r L2,
      regexLines text = L1 ++ (x ++ (key ++ r)) :: L2 ∧
      (∀ l ∈ L1, ¬ key <:+: l) ∧ FirstAt key x ∧
      regexLines (replace text key (key ++ value)) = L1 ++ (x ++ (key ++ value)) :: L2)
    ?_ ?_ text
  · intro l hl hin
    obtain ⟨b, r, hs, hb, hrep, _⟩ := replace_line hk ht hl hin
    refine ⟨[], b, r, [], ?_, by simp, hb, ?_⟩
    · rw [regexLines_single hl, hs]; rfl
    · rw [hrep]
      have hbd : AllDot b := allDot_of_append_left (hs ▸ hl)
      rw [regexLines_single (allDot_append hbd (allDot_append hkd h2))]
      rfl
  · intro l c t hl hc ih hin
    by_cases hkl : key <:+: l
    · obtain ⟨b, r, hs, hb, _, hrep⟩ := replace_line hk ht hl hkl
      refine ⟨[], b, r, regexLines t, ?_, by simp, hb, ?_⟩
      · rw [regexLines_cons hl hc, hs]; rfl
      · rw [hrep c t hc]
        have hbd : AllDot b := allDot_of_append_left (hs ▸ hl)
        rw [regexLines_cons (allDot_append hbd (allDot_append hkd h2)) hc]
        rfl
    · have hkt : key <:+: t := by
        rcases infix_of_infix_append_cons (not_mem_of_allDot hkd hc) hin with h | h
        · exact absurd h hkl
        · exact h
      obtain ⟨L1, x, r, L2, e1, e2, e3, e4⟩ := ih hkt
      refine ⟨l :: L1, x, r, L2, ?_, ?_, e3, ?_⟩
      · rw [regexLines_cons hl hc, e1]; rfl
      · intro l2 hl2
        rcases List.mem_cons.mp hl2 with h | h
        · rw [h]; exact hkl
        · exact e2 l2 h
      · rw [replace_skip_line hk hkd ht hkl hc, regexLines_cons hl hc, e4]; rfl

/-- C2 at the text of the claim's example. -/
theorem first_key_line_witness :
    ∃ L1 x r L2, regexLines "a=1\napp.web3.contract-address=0x0".toList
        = L1 ++ (x ++ (contractAddressKey ++ r)) :: L2 ∧
      (∀ l ∈ L1, ¬ contractAddressKey <:+: l) ∧ FirstAt contractAddressKey x ∧
      regexLines (replace "a=1\napp.web3.contract-address=0x0".toList contractAddressKey
        (contractAddressKey ++ "0x123".toList))
        = L1 ++ (x ++ (contractAddressKey ++ "0x123".toList)) :: L2 :=
  first_key_line_patched contractAddressKey "0x123".toList
    "a=1\napp.web3.contract-address=0x0".toList (by decide) (by decide)
    (by unfold AllDot; decide) (by decide)

/-- C2 as stated fails when the key first occurs after other text in a line,
here in a comment: the replacement rewrites the comment from the key on and
leaves the line that starts with the key as it was, so that no line of the
result is `app.web3.contract-address=0x123`. -/
theorem first_key_line_not_in_full :
    replace "# app.web3.contract-address=old\napp.web3.contract-address=0x0".toList
        contractAddressKey (contractAddressKey ++ "0x123".toList)
      = "# app.web3.contract-address=0x123\napp.web3.contract-address=0x0".toList ∧
    regexLines (replace "# app.web3.contract-address=old\napp.web3.contract-address=0x0".toList
        contractAddressKey (contractAddressKey ++ "0x123".toList))
      = ["# app.web3.contract-address=0x123".toList, "app.web3.contract-address=0x0".toList] ∧
    "app.web3.contract-address=0x123".toList ∉
      regexLines (replace "# app.web3.contract-address=old\napp.web3.contract-address=0x0".toList
        contractAddressKey (contractAddressKey ++ "0x123".toList)) := by
  decide

/-! ## Running the patch step twice -/

theorem patchedKeys_end {key : Str} (h : key ∈ patchedKeys) : key = key.dropLast ++ ['='] := by
  simp only [patchedKeys, List.mem_cons, List.mem_singleton, List.not_mem_nil, or_false] at h
  rcases h with rfl | rfl | rfl <;> decide

theorem patchedKeys_one_equals {key : Str} (h : key ∈ patchedKeys) : '=' ∉ key.dropLast := by
  simp only [patchedKeys, List.mem_cons, List.mem_singleton, List.not_mem_nil, or_false] at h
  rcases h with rfl | rfl | rfl <;> decide

/-- A text that occurs in `u ++ e :: v` occurs in `u ++ [e]`, or occurs in
`v`, or has `e` before its last character. -/
theorem infix_append_cons_cases {x v : Str} {e : Char} :
    ∀ {u : Str}, x <:+: u ++ e :: v → x <:+: u ++ [e] ∨ x <:+: v ∨ e ∈ x.dropLast := by
  have hpre : ∀ {u : Str}, x <+: u ++ e :: v → x <:+: u ++ [e] ∨ e ∈ x.dropLast := by
    intro u h
    have hw : u ++ [e] <+: u ++ e :: v := ⟨v, by simp⟩
    by_cases hl : x.length ≤ (u ++ [e]).length
    · exact Or.inl (List.prefix_of_prefix_length_le h hw hl).isInfix
    · obtain ⟨w, hw2⟩ := List.prefix_of_prefix_length_le hw h (by omega)
      have hwne : w ≠ [] := by
        intro hnil
        rw [hnil, List.append_nil] at hw2
        rw [hw2] at hl
        exact hl (le_refl _)
      right
      rw [← hw2, List.dropLast_append_of_ne_nil _ hwne]
      simp
  intro u
  induction u with
  | nil =>
    intro h
    rw [List.nil_append, List.infix_cons_iff] at h
    rcases h with h | h
    · rcases hpre (u := []) (by simpa using h) with h2 | h2
      · exact Or.inl h2
      · exact Or.inr (Or.inr h2)
    · exact Or.inr (Or.inl h)
  | cons c u ih =>
    intro h
    rw [List.cons_append, List.infix_cons_iff] at h
    rcases h with h | h
    · rcases hpre (u := c :: u) (by simpa using h) with h2 | h2
      · exact Or.inl h2
      · exact Or.inr (Or.inr h2)
    · rcases ih h with h2 | h2 | h2
      · exact Or.inl (List.infix_cons h2)
      · exact Or.inr (Or.inl h2)
      · exact Or.inr (Or.inr h2)

/-- A key that occurs in a patched line occurred in the line before. -/
theorem key_infix_of_patched {k k2 value b r : Str} (hk : k ∈ patchedKeys)
    (hk2 : k2 ∈ patchedKeys) (hv : ¬ k2 <:+: value) (h : k2 <:+: b ++ (k ++ value)) :
    k2 <:+: b ++ (k ++ r) := by
  rw [patchedKeys_end hk] at h ⊢
  have e1 : b ++ (k.dropLast ++ ['='] ++ value) = (b ++ k.dropLast) ++ '=' :: value := by simp
  rw [e1] at h
  rcases infix_append_cons_cases h with h2 | h2 | h2
  · exact h2.trans ⟨[], r, by simp⟩
  · exact absurd h2 hv
  · exact absurd h2 (patchedKeys_one_equals hk2)

theorem no_key_of_no_equals {v : Str} (h : '=' ∉ v) : ∀ k ∈ patchedKeys, ¬ k <:+: v := by
  intro k hk hin
  apply h
  apply hin.subset
  rw [patchedKeys_end hk]
  simp

theorem replace_idem {key : Str} (hk : key ≠ []) (hkn : '$' ∉ key) {value : Str}
    (h1 : '$' ∉ value) (h2 : AllDot value) (s : Str) :
    replace (replace s key (key ++ value)) key (key ++ value) = replace s key (key ++ value) := by
  have ht := no_dollar_append hkn h1
  rcases replace_cases hk ht s with h | ⟨b, r, a, _, _, ha, hb, hrep⟩
  · rw [h.2, h.2]
  · rw [hrep]
    have : b ++ (key ++ value ++ a) = b ++ (key ++ (value ++ a)) := by simp
    rw [this, replace_of_firstAt hk ht hb h2 ha]
    simp

/-- What a replacement does to a line that holds its key. -/
theorem patched_line_facts {k value l : Str} (hk : k ∈ patchedKeys) (hv : PlainValue value)
    (hl : AllDot l) (hin : k <:+: l) :
    ∃ b, replace l k (k ++ value) = b ++ (k ++ value) ∧
      (∀ c t, dot c = false →
        replace (l ++ c :: t) k (k ++ value) = (b ++ (k ++ value)) ++ c :: t) ∧
      AllDot (b ++ (k ++ value)) ∧
      (∀ k2 ∈ patchedKeys, k2 <:+: b ++ (k ++ value) → k2 <:+: l) := by
  obtain ⟨b, r, hs, _, hrep, hrep2⟩ := replace_line (patchedKeys_ne_nil hk)
    (no_dollar_append (patchedKeys_no_dollar hk) hv.1) hl hin
  have hbd : AllDot b := allDot_of_append_left (hs ▸ hl)
  refine ⟨b, hrep, hrep2, allDot_append hbd (allDot_append (patchedKeys_allDot hk) hv.2.1), ?_⟩
  intro k2 hk2 h
  rw [hs]
  exact key_infix_of_patched hk hk2 (hv.2.2 k2 hk2) h

/-- A key that occurs in a line after a replacement occurred in it before. -/
theorem key_infix_of_replace {k k2 value l : Str} (hk : k ∈ patchedKeys)
    (hk2 : k2 ∈ patchedKeys) (hv : PlainValue value) (hl : AllDot l)
    (h : k2 <:+: replace l k (k ++ value)) : k2 <:+: l := by
  by_cases hin : k <:+: l
  · obtain ⟨b, hrep, _, _, hkeys⟩ := patched_line_facts hk hv hl hin
    rw [hrep] at h
    exact hkeys k2 hk2 h
  · rw [replace_of_absent (patchedKeys_ne_nil hk) _ hin] at h
    exact h

theorem allDot_replace_line {k value l : Str} (hk : k ∈ patchedKeys) (hv : PlainValue value)
    (hl : AllDot l) : AllDot (replace l k (k ++ value)) := by
  by_cases hin : k <:+: l
  · obtain ⟨b, hrep, _, hd, _⟩ := patched_line_facts hk hv hl hin
    rw [hrep]; exact hd
  · rw [replace_of_absent (patchedKeys_ne_nil hk) _ hin]
    exact hl

/-- Two replacements commute on a text that starts with a line holding the
key of the first and not the key of the second. -/
theorem replace_comm_of_line {k k2 v v2 l : Str} (hk : k ∈ patchedKeys) (hk2 : k2 ∈ patchedKeys)
    (hv : PlainValue v) (hv2 : PlainValue v2) (hl : AllDot l) (hin : k <:+: l)
    (hnot : ¬ k2 <:+: l) :
    replace (replace l k2 (k2 ++ v2)) k (k ++ v) = replace (replace l k (k ++ v)) k2 (k2 ++ v2) ∧
    ∀ c t, dot c = false →
      replace (replace (l ++ c :: t) k2 (k2 ++ v2)) k (k ++ v)
        = replace (replace (l ++ c :: t) k (k ++ v)) k2 (k2 ++ v2) := by
  obtain ⟨b, hrep, hrep2, hd, hkeys⟩ := patched_line_facts hk hv hl hin
  have hnot2 : ¬ k2 <:+: b ++ (k ++ v) := fun h => hnot (hkeys k2 hk2 h)
  have ht2 := no_dollar_append (patchedKeys_no_dollar hk2) hv2.1
  constructor
  · rw [replace_of_absent (patchedKeys_ne_nil hk2) _ hnot, hrep,
      replace_of_absent (patchedKeys_ne_nil hk2) _ hnot2]
  · intro c t hc
    rw [replace_skip_line (patchedKeys_ne_nil hk2) (patchedKeys_allDot hk2) ht2 hnot hc,
      hrep2 c _ hc, hrep2 c t hc,
      replace_skip_line (patchedKeys_ne_nil hk2) (patchedKeys_allDot hk2) ht2 hnot2 hc]

/-- Two replacements with different keys commute on a text in which no line
holds two different keys. -/
theorem replace_comm {k k2 v v2 : Str} (hk : k ∈ patchedKeys) (hk2 : k2 ∈ patchedKeys)
    (hne : k ≠ k2) (hv : PlainValue v) (hv2 : PlainValue v2) :
    ∀ t, (∀ l ∈ regexLines t, AtMostOneKey l) →
      replace (replace t k2 (k2 ++ v2)) k (k ++ v)
        = replace (replace t k (k ++ v)) k2 (k2 ++ v2) := by
  have ht := no_dollar_append (patchedKeys_no_dollar hk) hv.1
  have ht2 := no_dollar_append (patchedKeys_no_dollar hk2) hv2.1
  refine line_induction ?_ ?_
  · intro l hl hH
    have hone : AtMostOneKey l := hH l (by rw [regexLines_single hl]; simp)
    by_cases hin : k <:+: l
    · have hnot : ¬ k2 <:+: l := fun h => hne (hone k hk k2 hk2 hin h)
      exact (replace_comm_of_line hk hk2 hv hv2 hl hin hnot).1
    · by_cases hin2 : k2 <:+: l
      · exact ((replace_comm_of_line hk2 hk hv2 hv hl hin2 hin).1).symm
      · rw [replace_of_absent (patchedKeys_ne_nil hk2) _ hin2,
          replace_of_absent (patchedKeys_ne_nil hk) _ hin,
          replace_of_absent (patchedKeys_ne_nil hk2) _ hin2]
  · intro l c t hl hc ih hH
    have hone : AtMostOneKey l := hH l (by rw [regexLines_cons hl hc]; simp)
    have hHt : ∀ l2 ∈ regexLines t, AtMostOneKey l2 :=
      fun l2 h2 => hH l2 (by rw [regexLines_cons hl hc]; exact List.mem_cons_of_mem _ h2)
    by_cases hin : k <:+: l
    · have hnot : ¬ k2 <:+: l := fun h => hne (hone k hk k2 hk2 hin h)
      exact (replace_comm_of_line hk hk2 hv hv2 hl hin hnot).2 c t hc
    · by_cases hin2 : k2 <:+: l
      · exact ((replace_comm_of_line hk2 hk hv2 hv hl hin2 hin).2 c t hc).symm
      · rw [replace_skip_line (patchedKeys_ne_nil hk2) (patchedKeys_allDot hk2) ht2 hin2 hc,
          replace_skip_line (patchedKeys_ne_nil hk) (patchedKeys_allDot hk) ht hin hc,
          replace_skip_line (patchedKeys_ne_nil hk) (patchedKeys_allDot hk) ht hin hc,
          replace_skip_line (patchedKeys_ne_nil hk2) (patchedKeys_allDot hk2) ht2 hin2 hc,
          ih hHt]

theorem atMostOneKey_of_keys_subset {l l2 : Str} (h : AtMostOneKey l)
    (hsub : ∀ k ∈ patchedKeys, k <:+: l2 → k <:+: l) : AtMostOneKey l2 :=
  fun k hk k2 hk2 h1 h2 => h k hk k2 hk2 (hsub k hk h1) (hsub k2 hk2 h2)

/-- A replacement keeps the property that no line holds two different keys. -/
theorem atMostOneKey_replace {k v : Str} (hk : k ∈ patchedKeys) (hv : PlainValue v) :
    ∀ t, (∀ l ∈ regexLines t, AtMostOneKey l) →
      ∀ l ∈ regexLines (replace t k (k ++ v)), AtMostOneKey l := by
  have ht := no_dollar_append (patchedKeys_no_dollar hk) hv.1
  refine line_induction ?_ ?_
  · intro l hl hH l2 hl2
    have hone : AtMostOneKey l := hH l (by rw [regexLines_single hl]; simp)
    rw [regexLines_single (allDot_replace_line hk hv hl)] at hl2
    rw [List.mem_singleton] at hl2
    subst hl2
    exact atMostOneKey_of_keys_subset hone
      (fun k2 hk2 h => key_infix_of_replace hk hk2 hv hl h)
  · intro l c t hl hc ih hH l2 hl2
    have hone : AtMostOneKey l := hH l (by rw [regexLines_cons hl hc]; simp)
    have hHt : ∀ l3 ∈ regexLines t, AtMostOneKey l3 :=
      fun l3 h3 => hH l3 (by rw [regexLines_cons hl hc]; exact List.mem_cons_of_mem _ h3)
    by_cases hin : k <:+: l
    · obtain ⟨b, _, hrep2, hd, hkeys⟩ := patched_line_facts hk hv hl hin
      rw [hrep2 c t hc, regexLines_cons hd hc] at hl2
      rcases List.mem_cons.mp hl2 with h | h
      · rw [h]
        exact atMostOneKey_of_keys_subset hone hkeys
      · exact hHt l2 h
    · rw [replace_skip_line (patchedKeys_ne_nil hk) (patchedKeys_allDot hk) ht hin hc,
        regexLines_cons hl hc] at hl2
      rcases List.mem_cons.mp hl2 with h | h
      · rw [h]; exact hone
      · exact ih hHt l2 h

theorem localRpcUrl_plain : PlainValue localRpcUrl :=
  ⟨by decide, localRpcUrl_allDot, no_key_of_no_equals (by decide)⟩

/-- C1, amended. On a text in which no line holds two different keys among
the three patched ones, and for a contract address and a chain id text with no
dollar sign and no line terminator in which none of the three keys occurs (as
every hexadecimal address and every decimal number is), running the patch
step on its own output gives the same text as running it once. -/
theorem patch_idempotent (properties contractAddress chainId network : Str)
    (hlines : ∀ l ∈ regexLines properties, AtMostOneKey l)
    (ha : PlainValue contractAddress) (hc : PlainValue chainId) :
    patchProperties (patchProperties properties contractAddress chainId network)
        contractAddress chainId network
      = patchProperties properties contractAddress chainId network := by
  have m1 := contractAddressKey_mem
  have m2 := chainIdKey_mem
  have m3 := rpcUrlKey_mem
  have hu := localRpcUrl_plain
  have n12 : contractAddressKey ≠ chainIdKey := by decide
  have n13 : contractAddressKey ≠ rpcUrlKey := by decide
  have n23 : chainIdKey ≠ rpcUrlKey := by decide
  have H1 := atMostOneKey_replace m1 ha properties hlines
  have H2 := atMostOneKey_replace m2 hc _ H1
  have i1 := replace_idem (patchedKeys_ne_nil m1) (patchedKeys_no_dollar m1) ha.1 ha.2.1
    properties
  have i2 := replace_idem (patchedKeys_ne_nil m2) (patchedKeys_no_dollar m2) hc.1 hc.2.1
    (replace properties contractAddressKey (contractAddressKey ++ contractAddress))
  have i3 := replace_idem (patchedKeys_ne_nil m3) (patchedKeys_no_dollar m3) hu.1 hu.2.1
    (replace (replace properties contractAddressKey (contractAddressKey ++ contractAddress))
      chainIdKey (chainIdKey ++ chainId))
  -- the contract-address replacement leaves the text after the first two steps as it is
  have f1 : replace (replace (replace properties contractAddressKey
        (contractAddressKey ++ contractAddress)) chainIdKey (chainIdKey ++ chainId))
        contractAddressKey (contractAddressKey ++ contractAddress)
      = replace (replace properties contractAddressKey
        (contractAddressKey ++ contractAddress)) chainIdKey (chainIdKey ++ chainId) := by
    rw [replace_comm m1 m2 n12 ha hc _ H1, i1]
  unfold patchProperties
  simp only []
  split
  · -- localhost: three replacements
    have g1 := replace_comm m1 m3 n13 ha hu _ H2
    have g2 := replace_comm m2 m3 n23 hc hu _ H2
    rw [g1, f1, g2, i2, i3]
  · rw [f1, i2]

/-- C1 at a text with one key on each line. -/
theorem patch_idempotent_witness :
    patchProperties (patchProperties
        "app.web3.chain-id=1\napp.web3.contract-address=0x0".toList
        "0x123".toList "31337".toList "localhost".toList)
        "0x123".toList "31337".toList "localhost".toList
      = patchProperties "app.web3.chain-id=1\napp.web3.contract-address=0x0".toList
        "0x123".toList "31337".toList "localhost".toList :=
  patch_idempotent "app.web3.chain-id=1\napp.web3.contract-address=0x0".toList
    "0x123".toList "31337".toList "localhost".toList
    (by unfold AtMostOneKey; decide)
    ⟨by decide, by unfold AllDot; decide, by decide⟩
    ⟨by decide, by unfold AllDot; decide, by decide⟩

/-- C1 as stated fails on a text with a line that holds two keys, here a
comment in front of the real setting: the first run rewrites the comment from
`app.web3.chain-id=` on, which removes the contract-address key from it, so
the second run patches the next line, which the first run had left alone. -/
theorem patch_not_idempotent :
    patchProperties
        "# app.web3.chain-id=1 app.web3.contract-address=0x0\napp.web3.contract-address=0x0".toList
        "0x123".toList "31337".toList "hardhat".toList
      = "# app.web3.chain-id=31337\napp.web3.contract-address=0x0".toList ∧
    patchProperties "# app.web3.chain-id=31337\napp.web3.contract-address=0x0".toList
        "0x123".toList "31337".toList "hardhat".toList
      = "# app.web3.chain-id=31337\napp.web3.contract-address=0x123".toList ∧
    patchProperties (patchProperties
        "# app.web3.chain-id=1 app.web3.contract-address=0x0\napp.web3.contract-address=0x0".toList
        "0x123".toList "31337".toList "hardhat".toList)
        "0x123".toList "31337".toList "hardhat".toList
      ≠ patchProperties
        "# app.web3.chain-id=1 app.web3.contract-address=0x0\napp.web3.contract-address=0x0".toList
        "0x123".toList "31337".toList "hardhat".toList := by
  decide

/-! ## The decimal text of a number is a plain value -/

theorem digitChar_mem_digits {m : Nat} (h : m < 10) :
    Nat.digitChar m ∈ "0123456789".toList := by
  interval_cases m <;> decide

theorem toDigitsCore_mem_digits (fuel : Nat) :
    ∀ (n : Nat) (ds : List Char), (∀ c ∈ ds, c ∈ "0123456789".toList) →
      ∀ c ∈ Nat.toDigitsCore 10 fuel n ds, c ∈ "0123456789".toList := by
  induction fuel with
  | zero => intro n ds h c hc; exact h c hc
  | succ fuel ih =>
    intro n ds h c hc
    have hd : ∀ x ∈ Nat.digitChar (n % 10) :: ds, x ∈ "0123456789".toList := by
      intro x hx
      rcases List.mem_cons.mp hx with hx | hx
      · rw [hx]; exact digitChar_mem_digits (Nat.mod_lt _ (by decide))
      · exact h x hx
    simp only [Nat.toDigitsCore] at hc
    split at hc
    · exact hd c hc
    · exact ih _ _ hd c hc

/-- The text the template literal gives for a chain id has no dollar sign
and no line terminator, and none of the keys occurs in it. -/
theorem decimal_plain (n : Nat) : PlainValue (decimal n) := by
  have h : ∀ c ∈ decimal n, c ∈ "0123456789".toList :=
    toDigitsCore_mem_digits _ _ _ (by simp)
  refine ⟨fun hm => ?_, fun c hc => ?_, no_key_of_no_equals fun hm => ?_⟩
  · exact absurd (h _ hm) (by decide)
  · have hc2 := h c hc
    have : ∀ x ∈ "0123456789".toList, dot x = true := by decide
    exact this c hc2
  · exact absurd (h _ hm) (by decide)

/-! ## Facts about the steps of `main` -/

theorem deployAndVerify_ok {chain : Chain} {d : Deployed} (h : deployAndVerify chain = .ok d) :
    chain.getNetwork = .ok d.chainId ∧
    (∃ rest, chain.getSigners = .ok (d.deployerAddress :: rest)) ∧
    (∃ balance, chain.getBalance d.deployerAddress = .ok balance) ∧
    chain.deploy = .ok d.contractAddress ∧
    (∃ code, chain.getCode d.contractAddress = .ok code ∧ code ≠ "0x".toList) ∧
    chain.PLATFORM_WALLET = .ok d.platformWallet ∧
    chain.PLATFORM_FEE_PERCENT = .ok d.platformFee ∧
    chain.admin = .ok d.admin := by
  unfold deployAndVerify at h
  cases h1 : chain.getNetwork with
  | error e => simp [h1, bind, Except.bind] at h
  | ok chainId =>
  cases h2 : chain.getSigners with
  | error e => simp [h1, h2, bind, Except.bind] at h
  | ok signers =>
  cases signers with
  | nil => simp [h1, h2, bind, Except.bind, throw, throwThe, MonadExceptOf.throw] at h
  | cons deployer rest =>
  cases h3 : chain.getBalance deployer with
  | error e => simp [h1, h2, h3, bind, Except.bind, pure, Except.pure] at h
  | ok balance =>
  cases h4 : chain.deploy with
  | error e => simp [h1, h2, h3, h4, bind, Except.bind, pure, Except.pure] at h
  | ok contractAddress =>
  cases h5 : chain.getCode contractAddress with
  | error e => simp [h1, h2, h3, h4, h5, bind, Except.bind, pure, Except.pure] at h
  | ok code =>
  by_cases hc0 : code = "0x".toList
  · have hc : code = ['0', 'x'] := hc0
    simp [h1, h2, h3, h4, h5, hc, bind, Except.bind, pure, Except.pure, throw, throwThe,
      MonadExceptOf.throw] at h
  have hc : ¬ code = ['0', 'x'] := hc0
  cases h6 : chain.PLATFORM_WALLET with
  | error e => simp [h1, h2, h3, h4, h5, h6, hc, bind, Except.bind, pure, Except.pure] at h
  | ok platformWallet =>
  cases h7 : chain.PLATFORM_FEE_PERCENT with
  | error e => simp [h1, h2, h3, h4, h5, h6, h7, hc, bind, Except.bind, pure, Except.pure] at h
  | ok platformFee =>
  cases h8 : chain.admin with
  | error e => simp [h1, h2, h3, h4, h5, h6, h7, h8, hc, bind, Except.bind, pure, Except.pure] at h
  | ok admin =>
  simp only [h1, h2, h3, h4, h5, h6, h7, h8, bind, Except.bind, pure, Except.pure,
    List.head?_cons] at h
  rw [if_neg hc0] at h
  cases h
  exact ⟨rfl, ⟨rest, rfl⟩, ⟨balance, h3⟩, rfl, ⟨code, h5, hc0⟩, rfl, rfl, rfl⟩

theorem deployAndVerify_of_ok {chain : Chain} {chainId balance platformFee : Nat}
    {deployer contractAddress code platformWallet admin : Str} {rest : List Str}
    (h1 : chain.getNetwork = .ok chainId) (h2 : chain.getSigners = .ok (deployer :: rest))
    (h3 : chain.getBalance deployer = .ok balance) (h4 : chain.deploy = .ok contractAddress)
    (h5 : chain.getCode contractAddress = .ok code) (hc : code ≠ "0x".toList)
    (h6 : chain.PLATFORM_WALLET = .ok platformWallet)
    (h7 : chain.PLATFORM_FEE_PERCENT = .ok platformFee) (h8 : chain.admin = .ok admin) :
    deployAndVerify chain =
      .ok (Deployed.mk chainId deployer contractAddress platformWallet platformFee admin) := by
  have hc : ¬ code = ['0', 'x'] := hc
  simp [deployAndVerify, h1, h2, h3, h4, h5, h6, h7, h8, hc, bind, Except.bind, pure, Except.pure]

theorem deployAndVerify_empty_code {chain : Chain} {contractAddress : Str}
    (h4 : chain.deploy = .ok contractAddress)
    (h5 : chain.getCode contractAddress = .ok "0x".toList) :
    ∃ e, deployAndVerify chain = .error e := by
  cases h : deployAndVerify chain with
  | error e => exact ⟨e, rfl⟩
  | ok d =>
    obtain ⟨_, _, _, h4', ⟨code, h5', hc⟩, _⟩ := deployAndVerify_ok h
    rw [h4] at h4'
    cases h4'
    rw [h5] at h5'
    cases h5'
    exact absurd rfl hc

theorem main_of_error {chain : Chain} {e : Error} (h : deployAndVerify chain = .error e)
    (lib : Lib) (dirname : Str) (clock : Clock) (s : Sys) :
    main lib dirname clock chain s = { exitCode := 1, sys := s } := by
  simp [main, h]

theorem main_of_saved {lib : Lib} {dirname : Str} {clock : Clock} {chain : Chain} {s s2 : Sys}
    {d : Deployed} {accounts : List AccountInfo} {blockNumber : Nat}
    (h1 : deployAndVerify chain = .ok d) (h2 : accountsInfo lib chain = .ok accounts)
    (h3 : chain.getBlockNumber = .ok blockNumber)
    (h4 : saveRecord lib dirname chain.networkName clock d
      (deploymentInfo chain.networkName clock d accounts blockNumber) (checkAdmin lib d s)
        = (.ok (), s2)) :
    main lib dirname clock chain s =
      { exitCode := 0,
        sys := updateProperties dirname d.contractAddress d.chainId chain.networkName s2 } := by
  simp [main, h1, h2, h3, h4]

theorem getLast?_pathJoin_two (a b : Str) (hb : b ≠ []) :
    (pathJoin [a, b]).getLast? = b.getLast? := by
  have : pathJoin [a, b] = (a ++ "/".toList) ++ b := by
    simp [pathJoin, List.intercalate, List.intersperse]
  rw [this, List.getLast?_append_of_ne_nil _ hb]

theorem getLast?_deploymentFile (dirname network : Str) :
    (deploymentFile dirname network).getLast? = some 'n' := by
  unfold deploymentFile
  rw [getLast?_pathJoin_two _ _ (by simp), List.getLast?_append_of_ne_nil _ (by decide)]
  decide

theorem getLast?_docFile (dirname network : Str) (now : Nat) :
    (docFile dirname network now).getLast? = some 'd' := by
  unfold docFile
  rw [getLast?_pathJoin_two _ _ (by simp), List.getLast?_append_of_ne_nil _ (by decide)]
  decide

theorem getLast?_appPropertiesPath (dirname : Str) :
    (appPropertiesPath dirname).getLast? = some 's' := by
  have : appPropertiesPath dirname = dirname ++
      "/../../payment-service/src/main/resources/application.properties".toList := by
    simp [appPropertiesPath, pathJoin, List.intercalate, List.intersperse]
  rw [this, List.getLast?_append_of_ne_nil _ (by decide)]
  decide

theorem deploymentFile_ne_appPropertiesPath (dirname network dirname2 : Str) :
    deploymentFile dirname network ≠ appPropertiesPath dirname2 := by
  intro h
  have := congrArg List.getLast? h
  rw [getLast?_deploymentFile, getLast?_appPropertiesPath] at this
  exact absurd this (by decide)

theorem docFile_ne_deploymentFile (dirname network dirname2 network2 : Str) (now : Nat) :
    docFile dirname network now ≠ deploymentFile dirname2 network2 := by
  intro h
  have := congrArg List.getLast? h
  rw [getLast?_deploymentFile, getLast?_docFile] at this
  exact absurd this (by decide)

theorem saveRecord_ok {lib : Lib} {dirname network : Str} {clock : Clock} {d : Deployed}
    {info : DeploymentInfo} {s s2 : Sys}
    (h : saveRecord lib dirname network clock d info s = (.ok (), s2)) :
    s2.fs.file (deploymentFile dirname network) = some (lib.jsonStringify info) ∧
    s2.fs.file (docFile dirname network clock.now) = some (documentation network clock d) ∧
    ∀ p, p ≠ deploymentFile dirname network → p ≠ docFile dirname network clock.now →
      s2.fs.file p = s.fs.file p := by
  have hne := docFile_ne_deploymentFile dirname network dirname network clock.now
  revert h
  cases hA : s.fs.dir (deploymentsDir dirname) <;>
  cases hF : s.fs.file (deploymentsDir dirname) <;>
  cases hB : s.fs.mkdirError (deploymentsDir dirname) <;>
  cases hC : s.fs.writeError (deploymentFile dirname network) <;>
  cases hD : s.fs.writeError (docFile dirname network clock.now) <;>
  simp only [saveRecord, existsSync, mkdirSync, writeFileSync, hA, hF, hB, hC, hD] <;>
  intro h <;>
  simp only [Option.isSome_none, Option.isSome_some, Bool.or_self, Bool.or_false, Bool.or_true,
    Bool.false_eq_true, if_false, if_true, hC, hD, hB, Prod.mk.injEq, true_and, false_and,
    reduceCtorEq] at h <;>
  (subst h
   refine ⟨?_, ?_, ?_⟩
   · simp [Function.update_noteq hne.symm]
   · simp
   · intro p hp1 hp2
     simp [Function.update_noteq hp1, Function.update_noteq hp2])

theorem updateProperties_file_of_ne (dirname contractAddress : Str) (chainId : Nat)
    (network : Str) (s : Sys) {p : Str} (hp : p ≠ appPropertiesPath dirname) :
    (updateProperties dirname contractAddress chainId network s).fs.file p = s.fs.file p := by
  cases hA : s.fs.dir (appPropertiesPath dirname) <;>
  cases hF : s.fs.file (appPropertiesPath dirname) <;>
  cases hB : s.fs.readError (appPropertiesPath dirname) <;>
  cases hC : s.fs.writeError (appPropertiesPath dirname) <;>
  simp [updateProperties, existsSync, readFileSync, writeFileSync, warn, hA, hF, hB, hC,
    Function.update_noteq hp]

theorem updateProperties_of_absent (dirname contractAddress : Str) (chainId : Nat)
    (network : Str) (s : Sys) (h : (existsSync (appPropertiesPath dirname) s).1 = false) :
    updateProperties dirname contractAddress chainId network s =
      { fs := s.fs, trace := s.trace ++ [Event.existsSync (appPropertiesPath dirname)] } := by
  unfold updateProperties
  simp only [h]
  simp [existsSync]

theorem updateProperties_of_patched (dirname contractAddress : Str) (chainId : Nat)
    (network : Str) (s : Sys) (properties : Str)
    (hf : s.fs.file (appPropertiesPath dirname) = some properties)
    (hr : s.fs.readError (appPropertiesPath dirname) = none)
    (hw : s.fs.writeError (appPropertiesPath dirname) = none) :
    updateProperties dirname contractAddress chainId network s =
      { fs :=
          { s.fs with
            file := Function.update s.fs.file (appPropertiesPath dirname)
              (some (patchProperties properties contractAddress (decimal chainId) network)) },
        trace := s.trace ++ [Event.existsSync (appPropertiesPath dirname),
          Event.readFileSync (appPropertiesPath dirname),
          Event.writeFileSync (appPropertiesPath dirname)
            (patchProperties properties contractAddress (decimal chainId) network)] } := by
  simp [updateProperties, existsSync, readFileSync, writeFileSync, hf, hr, hw]

theorem updateProperties_of_read_error (dirname contractAddress : Str) (chainId : Nat)
    (network : Str) (s : Sys) (e : Error)
    (hx : (existsSync (appPropertiesPath dirname) s).1 = true)
    (hr : s.fs.readError (appPropertiesPath dirname) = some e) :
    updateProperties dirname contractAddress chainId network s =
      { fs := s.fs,
        trace := s.trace ++ [Event.existsSync (appPropertiesPath dirname),
          Event.readFileSync (appPropertiesPath dirname),
          Event.warn (Warning.propertiesNotUpdated e)] } := by
  unfold updateProperties
  rw [if_pos hx]
  simp [existsSync, readFileSync, warn, hr]

theorem updateProperties_of_write_error (dirname contractAddress : Str) (chainId : Nat)
    (network : Str) (s : Sys) (properties : Str) (e : Error)
    (hf : s.fs.file (appPropertiesPath dirname) = some properties)
    (hr : s.fs.readError (appPropertiesPath dirname) = none)
    (hw : s.fs.writeError (appPropertiesPath dirname) = some e) :
    updateProperties dirname contractAddress chainId network s =
      { fs := s.fs,
        trace := s.trace ++ [Event.existsSync (appPropertiesPath dirname),
          Event.readFileSync (appPropertiesPath dirname),
          Event.writeFileSync (appPropertiesPath dirname)
            (patchProperties properties contractAddress (decimal chainId) network),
          Event.warn (Warning.propertiesNotUpdated e)] } := by
  simp [updateProperties, existsSync, readFileSync, writeFileSync, warn, hf, hr, hw]

/-! ## The verification gate -/

/-- C4. When the code at the address of the new contract is empty (`0x`), the
run ends with exit code 1 in the state it started in: no file has been
created, written or read and nothing has been printed as a warning.
Conversely, whenever a run has done anything at all to the outside (so in
particular whenever it has written a record), the code at the deployed
address was not empty. -/
theorem empty_code_aborts_before_any_write (lib : Lib) (dirname : Str) (clock : Clock)
    (chain : Chain) (s : Sys) :
    (∀ contractAddress, chain.deploy = .ok contractAddress →
        chain.getCode contractAddress = .ok "0x".toList →
        main lib dirname clock chain s = { exitCode := 1, sys := s }) ∧
    (∀ e ∈ (main lib dirname clock chain s).sys.trace, e ∉ s.trace →
        ∃ contractAddress code, chain.deploy = .ok contractAddress ∧
          chain.getCode contractAddress = .ok code ∧ code ≠ "0x".toList) := by
  constructor
  · intro contractAddress h4 h5
    obtain ⟨e, he⟩ := deployAndVerify_empty_code h4 h5
    exact main_of_error he lib dirname clock s
  · intro e he hne
    cases h : deployAndVerify chain with
    | error err =>
      rw [main_of_error h] at he
      exact absurd he hne
    | ok d =>
      obtain ⟨_, _, _, h4, ⟨code, h5, hc⟩, _⟩ := deployAndVerify_ok h
      exact ⟨d.contractAddress, code, h4, h5, hc⟩

/-- C4 at the sample run with empty code: exit code 1, nothing touched. -/
theorem empty_code_aborts_witness :
    main sampleLib sampleDirname sampleClock (sampleChain "0x".toList "0xf39F".toList)
        (sampleSys true "app.web3.chain-id=1".toList)
      = { exitCode := 1, sys := sampleSys true "app.web3.chain-id=1".toList } :=
  (empty_code_aborts_before_any_write sampleLib sampleDirname sampleClock
    (sampleChain "0x".toList "0xf39F".toList) (sampleSys true "app.web3.chain-id=1".toList)).1
    "0x5FbD".toList rfl rfl

theorem record_file_after_main {lib : Lib} {dirname : Str} {clock : Clock} {chain : Chain}
    {s s2 : Sys} {d : Deployed} {accounts : List AccountInfo} {blockNumber : Nat}
    (h1 : deployAndVerify chain = .ok d) (h2 : accountsInfo lib chain = .ok accounts)
    (h3 : chain.getBlockNumber = .ok blockNumber)
    (h4 : saveRecord lib dirname chain.networkName clock d
      (deploymentInfo chain.networkName clock d accounts blockNumber) (checkAdmin lib d s)
        = (.ok (), s2)) :
    (main lib dirname clock chain s).sys.fs.file (deploymentFile dirname chain.networkName)
      = some (lib.jsonStringify
          (deploymentInfo chain.networkName clock d accounts blockNumber)) := by
  rw [main_of_saved h1 h2 h3 h4]
  simp only []
  rw [updateProperties_file_of_ne _ _ _ _ _ (deploymentFile_ne_appPropertiesPath _ _ _)]
  exact (saveRecord_ok h4).1

/-! ## The reconcile step never fails the run -/

/-- C8. In every run that reaches the reconcile step (the chain was read, the
record and the documentation were written, leaving the state `s2`), whatever
the file system holds and allows at the path of application.properties, the
run ends with exit code 0; the reconcile step changes no file other than
application.properties, so the record file still holds the serialised record.
When application.properties is absent the step only asks whether it exists:
the file system is left as it was (the file is not created) and nothing is
read or written.  When reading it throws, or when writing it throws, the file
system is left as it was and a warning with the message is printed.  When
both succeed the file holds the patched text. -/
theorem reconcile_never_fails (lib : Lib) (dirname : Str) (clock : Clock) (chain : Chain)
    (s s2 : Sys) (d : Deployed) (accounts : List AccountInfo) (blockNumber : Nat)
    (h1 : deployAndVerify chain = .ok d) (h2 : accountsInfo lib chain = .ok accounts)
    (h3 : chain.getBlockNumber = .ok blockNumber)
    (h4 : saveRecord lib dirname chain.networkName clock d
      (deploymentInfo chain.networkName clock d accounts blockNumber) (checkAdmin lib d s)
        = (.ok (), s2)) :
    (main lib dirname clock chain s).exitCode = 0 ∧
    (∀ p, p ≠ appPropertiesPath dirname →
      (main lib dirname clock chain s).sys.fs.file p = s2.fs.file p) ∧
    (main lib dirname clock chain s).sys.fs.file (deploymentFile dirname chain.networkName)
      = some (lib.jsonStringify (deploymentInfo chain.networkName clock d accounts blockNumber)) ∧
    ((existsSync (appPropertiesPath dirname) s2).1 = false →
      (main lib dirname clock chain s).sys =
        { fs := s2.fs,
          trace := s2.trace ++ [Event.existsSync (appPropertiesPath dirname)] }) ∧
    (∀ e, (existsSync (appPropertiesPath dirname) s2).1 = true →
      s2.fs.readError (appPropertiesPath dirname) = some e →
      (main lib dirname clock chain s).sys =
        { fs := s2.fs,
          trace := s2.trace ++ [Event.existsSync (appPropertiesPath dirname),
            Event.readFileSync (appPropertiesPath dirname),
            Event.warn (Warning.propertiesNotUpdated e)] }) ∧
    (∀ properties e, s2.fs.file (appPropertiesPath dirname) = some properties →
      s2.fs.readError (appPropertiesPath dirname) = none →
      s2.fs.writeError (appPropertiesPath dirname) = some e →
      (main lib dirname clock chain s).sys =
        { fs := s2.fs,
          trace := s2.trace ++ [Event.existsSync (appPropertiesPath dirname),
            Event.readFileSync (appPropertiesPath dirname),
            Event.writeFileSync (appPropertiesPath dirname)
              (patchProperties properties d.contractAddress (decimal d.chainId)
                chain.networkName),
            Event.warn (Warning.propertiesNotUpdated e)] }) ∧
    (∀ properties, s2.fs.file (appPropertiesPath dirname) = some properties →
      s2.fs.readError (appPropertiesPath dirname) = none →
      s2.fs.writeError (appPropertiesPath dirname) = none →
      (main lib dirname clock chain s).sys.fs.file (appPropertiesPath dirname) =
        some (patchProperties properties d.contractAddress (decimal d.chainId)
          chain.networkName)) := by
  refine ⟨?_, ?_, record_file_after_main h1 h2 h3 h4, ?_, ?_, ?_, ?_⟩
  · rw [main_of_saved h1 h2 h3 h4]
  · intro p hp
    rw [main_of_saved h1 h2 h3 h4]
    exact updateProperties_file_of_ne _ _ _ _ _ hp
  · intro h
    rw [main_of_saved h1 h2 h3 h4]
    exact updateProperties_of_absent _ _ _ _ _ h
  · intro e hx hr
    rw [main_of_saved h1 h2 h3 h4]
    exact updateProperties_of_read_error _ _ _ _ _ e hx hr
  · intro properties e hf hr hw
    rw [main_of_saved h1 h2 h3 h4]
    exact updateProperties_of_write_error _ _ _ _ _ properties e hf hr hw
  · intro properties hf hr hw
    rw [main_of_saved h1 h2 h3 h4]
    rw [updateProperties_of_patched _ _ _ _ _ properties hf hr hw]
    simp

/-- C8 at the sample run, application.properties absent. -/
theorem reconcile_never_fails_witness :
    (main sampleLib sampleDirname sampleClock (sampleChain "0x6080".toList "0xf39F".toList)
      (sampleSys false [])).exitCode = 0 :=
  (reconcile_never_fails sampleLib sampleDirname sampleClock
    (sampleChain "0x6080".toList "0xf39F".toList) (sampleSys false [])
    (saveRecord sampleLib sampleDirname "localhost".toList sampleClock
      (sampleDeployed "0xf39F".toList)
      (deploymentInfo "localhost".toList sampleClock (sampleDeployed "0xf39F".toList)
        [accountEntry sampleLib 0 "0xf39F".toList 10000,
         accountEntry sampleLib 1 "0x7099".toList 10000] 1)
      (checkAdmin sampleLib (sampleDeployed "0xf39F".toList) (sampleSys false []))).2
    (sampleDeployed "0xf39F".toList)
    [accountEntry sampleLib 0 "0xf39F".toList 10000,
     accountEntry sampleLib 1 "0x7099".toList 10000] 1
    (deployAndVerify_of_ok rfl rfl rfl rfl rfl (by decide) rfl rfl rfl) rfl rfl rfl).1

/-! ## The record's configuration -/

/-- C6. In every run that writes its files, the record file holds the
serialisation of the record `deploymentInfo`, and the configuration of that
record is the wallet `W` returned by `PLATFORM_WALLET()`, the decimal text of
the fee `F` returned by `PLATFORM_FEE_PERCENT()` and the address `A` returned
by `admin()`, whatever the other inputs of the run are. -/
theorem record_configuration_read_from_contract (lib : Lib) (dirname : Str) (clock : Clock)
    (chain : Chain) (s s2 : Sys) (d : Deployed) (accounts : List AccountInfo)
    (blockNumber F : Nat) (W A : Str)
    (hW : chain.PLATFORM_WALLET = .ok W) (hF : chain.PLATFORM_FEE_PERCENT = .ok F)
    (hA : chain.admin = .ok A)
    (h1 : deployAndVerify chain = .ok d) (h2 : accountsInfo lib chain = .ok accounts)
    (h3 : chain.getBlockNumber = .ok blockNumber)
    (h4 : saveRecord lib dirname chain.networkName clock d
      (deploymentInfo chain.networkName clock d accounts blockNumber) (checkAdmin lib d s)
        = (.ok (), s2)) :
    (main lib dirname clock chain s).sys.fs.file (deploymentFile dirname chain.networkName)
      = some (lib.jsonStringify (deploymentInfo chain.networkName clock d accounts blockNumber)) ∧
    (deploymentInfo chain.networkName clock d accounts blockNumber).configuration =
      { platformWallet := W, platformFeePercent := decimal F, admin := A } := by
  refine ⟨record_file_after_main h1 h2 h3 h4, ?_⟩
  obtain ⟨_, _, _, _, _, h6, h7, h8⟩ := deployAndVerify_ok h1
  rw [hW] at h6
  rw [hF] at h7
  rw [hA] at h8
  cases h6
  cases h7
  cases h8
  rfl

/-- C6 at the sample run: fee 5 and wallet `0xABC` are what the record holds. -/
theorem record_configuration_witness :
    (deploymentInfo "localhost".toList sampleClock (sampleDeployed "0xf39F".toList)
        [accountEntry sampleLib 0 "0xf39F".toList 10000,
         accountEntry sampleLib 1 "0x7099".toList 10000] 1).configuration =
      { platformWallet := "0xABC".toList, platformFeePercent := "5".toList,
        admin := "0xf39F".toList } :=
  (record_configuration_read_from_contract sampleLib sampleDirname sampleClock
    (sampleChain "0x6080".toList "0xf39F".toList) (sampleSys false [])
    (saveRecord sampleLib sampleDirname "localhost".toList sampleClock
      (sampleDeployed "0xf39F".toList)
      (deploymentInfo "localhost".toList sampleClock (sampleDeployed "0xf39F".toList)
        [accountEntry sampleLib 0 "0xf39F".toList 10000,
         accountEntry sampleLib 1 "0x7099".toList 10000] 1)
      (checkAdmin sampleLib (sampleDeployed "0xf39F".toList) (sampleSys false []))).2
    (sampleDeployed "0xf39F".toList)
    [accountEntry sampleLib 0 "0xf39F".toList 10000,
     accountEntry sampleLib 1 "0x7099".toList 10000] 1 5 "0xABC".toList "0xf39F".toList
    rfl rfl rfl
    (deployAndVerify_of_ok rfl rfl rfl rfl rfl (by decide) rfl rfl rfl) rfl rfl rfl).2

/-! ## The account snapshots -/

theorem accountEntry_fields (lib : Lib) (i : Nat) (address : Str) (balance : Nat) :
    (accountEntry lib i address balance).index = i ∧
    (accountEntry lib i address balance).address = address ∧
    ((accountEntry lib i address balance).isAdmin = true ↔ i = 0) := by
  unfold accountEntry
  split <;> simp_all

theorem accountsLoop_spec (lib : Lib) (chain : Chain) :
    ∀ (l : List Str) (i : Nat), (∀ a ∈ l, ∃ b, chain.getBalance a = .ok b) →
      ∃ accounts, accountsLoop lib chain i l = .ok accounts ∧ accounts.length = l.length ∧
        ∀ k, k < l.length → ∃ e, accounts[k]? = some e ∧ e.index = i + k ∧
          l[k]? = some e.address ∧ (e.isAdmin = true ↔ i + k = 0) := by
  intro l
  induction l with
  | nil =>
    intro i _
    exact ⟨[], rfl, rfl, fun k hk => absurd hk (by simp)⟩
  | cons a rest ih =>
    intro i h
    obtain ⟨b, hb⟩ := h a (by simp)
    obtain ⟨later, h1, h2, h3⟩ := ih (i + 1) (fun x hx => h x (List.mem_cons_of_mem _ hx))
    refine ⟨accountEntry lib i a b :: later, ?_, by simp [h2], ?_⟩
    · simp [accountsLoop, hb, h1, bind, Except.bind, pure, Except.pure]
    · intro k hk
      cases k with
      | zero =>
        obtain ⟨f1, f2, f3⟩ := accountEntry_fields lib i a b
        exact ⟨accountEntry lib i a b, by simp, by simpa using f1, by simp [f2], by simpa using f3⟩
      | succ k =>
        obtain ⟨e, e1, e2, e3, e4⟩ := h3 k (by simpa using hk)
        refine ⟨e, by simpa using e1, by omega, by simpa using e3, ?_⟩
        rw [e4]; omega

/-- C10. On a network other than `localhost` and `hardhat` the list of account
snapshots is empty.  On `localhost` and `hardhat`, with `n` signers whose
balances the chain returns, the list has exactly `min 5 n` entries, and for
every `k` below that, entry `k` has index `k`, the address of signer `k`, and
`isAdmin` set exactly when `k` is 0.  The record built from the list has the
list as its `accounts`. -/
theorem account_snapshots_local_and_bounded (lib : Lib) (chain : Chain) :
    (chain.networkName ≠ "localhost".toList → chain.networkName ≠ "hardhat".toList →
      accountsInfo lib chain = .ok []) ∧
    (chain.networkName = "localhost".toList ∨ chain.networkName = "hardhat".toList →
      ∀ signers, chain.getSigners = .ok signers →
        (∀ a ∈ signers.take 5, ∃ b, chain.getBalance a = .ok b) →
        ∃ accounts, accountsInfo lib chain = .ok accounts ∧
          (∀ network clock d blockNumber,
            (deploymentInfo network clock d accounts blockNumber).accounts = accounts) ∧
          accounts.length = min 5 signers.length ∧
          ∀ k, k < min 5 signers.length → ∃ e, accounts[k]? = some e ∧ e.index = k ∧
            signers[k]? = some e.address ∧ (e.isAdmin = true ↔ k = 0)) := by
  constructor
  · intro h1 h2
    unfold accountsInfo
    rw [if_neg (by rintro (h | h); exacts [h1 h, h2 h])]
    rfl
  · intro hl signers hs hb
    have htake : signers.take (min 5 signers.length) = signers.take 5 := by
      rw [List.take_eq_take]; simp
    obtain ⟨accounts, h1, h2, h3⟩ := accountsLoop_spec lib chain (signers.take 5) 0 hb
    refine ⟨accounts, ?_, fun _ _ _ _ => rfl, ?_, ?_⟩
    · unfold accountsInfo
      rw [if_pos hl]
      simp only [hs, bind, Except.bind, htake]
      exact h1
    · rw [h2, List.length_take]
    · intro k hk
      have hk5 : k < 5 := lt_of_lt_of_le hk (min_le_left _ _)
      obtain ⟨e, e1, e2, e3, e4⟩ := h3 k (by rw [List.length_take]; exact hk)
      refine ⟨e, e1, by omega, ?_, by simpa using e4⟩
      rw [← e3, List.getElem?_take_of_lt hk5]

/-- C10 at the sample run: two signers give two snapshots. -/
theorem account_snapshots_witness :
    ∃ accounts, accountsInfo sampleLib (sampleChain "0x6080".toList "0xf39F".toList)
        = .ok accounts ∧ accounts.length = 2 := by
  obtain ⟨accounts, h1, _, h3, _⟩ :=
    (account_snapshots_local_and_bounded sampleLib
      (sampleChain "0x6080".toList "0xf39F".toList)).2 (Or.inl rfl)
      ["0xf39F".toList, "0x7099".toList] rfl (fun _ _ => ⟨10000, rfl⟩)
  exact ⟨accounts, h1, h3⟩

/-! ## The admin check is advisory -/

theorem saveRecord_withEarlier (lib : Lib) (dirname network : Str) (clock : Clock) (d : Deployed)
    (info : DeploymentInfo) (t : List Event) (s : Sys) :
    saveRecord lib dirname network clock d info (withEarlier t s) =
      ((saveRecord lib dirname network clock d info s).1,
        withEarlier t (saveRecord lib dirname network clock d info s).2) := by
  cases hA : s.fs.dir (deploymentsDir dirname) <;>
  cases hF : s.fs.file (deploymentsDir dirname) <;>
  cases hB : s.fs.mkdirError (deploymentsDir dirname) <;>
  cases hC : s.fs.writeError (deploymentFile dirname network) <;>
  cases hD : s.fs.writeError (docFile dirname network clock.now) <;>
  simp [saveRecord, existsSync, mkdirSync, writeFileSync, withEarlier, hA, hF, hB, hC, hD]

theorem updateProperties_withEarlier (dirname contractAddress : Str) (chainId : Nat)
    (network : Str) (t : List Event) (s : Sys) :
    updateProperties dirname contractAddress chainId network (withEarlier t s) =
      withEarlier t (updateProperties dirname contractAddress chainId network s) := by
  cases hA : s.fs.dir (appPropertiesPath dirname) <;>
  cases hF : s.fs.file (appPropertiesPath dirname) <;>
  cases hB : s.fs.readError (appPropertiesPath dirname) <;>
  cases hC : s.fs.writeError (appPropertiesPath dirname) <;>
  simp [updateProperties, existsSync, readFileSync, writeFileSync, warn, withEarlier,
    hA, hF, hB, hC]

theorem saveRecord_events (lib : Lib) (dirname network : Str) (clock : Clock) (d : Deployed)
    (info : DeploymentInfo) (s : Sys) :
    ∀ e ∈ (saveRecord lib dirname network clock d info s).2.trace,
      e ∈ s.trace ∨ ∀ w, e ≠ Event.warn w := by
  cases hA : s.fs.dir (deploymentsDir dirname) <;>
  cases hF : s.fs.file (deploymentsDir dirname) <;>
  cases hB : s.fs.mkdirError (deploymentsDir dirname) <;>
  cases hC : s.fs.writeError (deploymentFile dirname network) <;>
  cases hD : s.fs.writeError (docFile dirname network clock.now) <;>
  simp only [saveRecord, existsSync, mkdirSync, writeFileSync, hA, hF, hB, hC, hD] <;>
  (intro e he; by_cases hm : e ∈ s.trace
   · exact Or.inl hm
   · right; intro w hw; subst hw; simp_all)

theorem updateProperties_events (dirname contractAddress : Str) (chainId : Nat)
    (network : Str) (s : Sys) :
    ∀ e ∈ (updateProperties dirname contractAddress chainId network s).trace,
      e ∈ s.trace ∨ ∀ a b, e ≠ Event.warn (Warning.adminMismatch a b) := by
  cases hA : s.fs.dir (appPropertiesPath dirname) <;>
  cases hF : s.fs.file (appPropertiesPath dirname) <;>
  cases hB : s.fs.readError (appPropertiesPath dirname) <;>
  cases hC : s.fs.writeError (appPropertiesPath dirname) <;>
  simp only [updateProperties, existsSync, readFileSync, writeFileSync, warn, hA, hF, hB, hC] <;>
  (intro e he; by_cases hm : e ∈ s.trace
   · exact Or.inl hm
   · right; intro a b hw; subst hw; simp_all)

theorem accountsLoop_neverDiffering (lib : Lib) (chain : Chain) :
    ∀ (l : List Str) (i : Nat),
      accountsLoop (neverDiffering lib) chain i l = accountsLoop lib chain i l := by
  intro l
  induction l with
  | nil => intro i; rfl
  | cons a rest ih =>
    intro i
    simp only [accountsLoop, ih]
    rfl

theorem accountsInfo_neverDiffering (lib : Lib) (chain : Chain) :
    accountsInfo (neverDiffering lib) chain = accountsInfo lib chain := by
  unfold accountsInfo
  simp only [accountsLoop_neverDiffering]

theorem checkAdmin_eq (lib : Lib) (d : Deployed) (s : Sys) :
    checkAdmin lib d s = withEarlier
      (s.trace ++ (if lib.toLowerCase d.admin ≠ lib.toLowerCase d.deployerAddress then
        [Event.warn (Warning.adminMismatch d.admin d.deployerAddress)] else []))
      { fs := s.fs, trace := [] } := by
  unfold checkAdmin warn withEarlier
  split <;> simp

theorem checkAdmin_neverDiffering (lib : Lib) (d : Deployed) (s : Sys) :
    checkAdmin (neverDiffering lib) d s = s := by
  simp [checkAdmin, neverDiffering]

/-- With the chain read, a run is the run that never warns about the admin,
started on an empty trace, with the earlier events and the warning (if the
lower-cased addresses differ) put in front. -/
theorem main_eq_withEarlier (lib : Lib) (dirname : Str) (clock : Clock) (chain : Chain)
    (s : Sys) (d : Deployed) (h1 : deployAndVerify chain = .ok d) :
    main lib dirname clock chain s =
      { exitCode := (main (neverDiffering lib) dirname clock chain
            { fs := s.fs, trace := [] }).exitCode,
        sys := withEarlier
          (s.trace ++ (if lib.toLowerCase d.admin ≠ lib.toLowerCase d.deployerAddress then
            [Event.warn (Warning.adminMismatch d.admin d.deployerAddress)] else []))
          (main (neverDiffering lib) dirname clock chain { fs := s.fs, trace := [] }).sys } := by
  unfold main
  simp only [h1, checkAdmin_neverDiffering, accountsInfo_neverDiffering]
  rw [checkAdmin_eq]
  cases accountsInfo lib chain with
  | error e => rfl
  | ok accounts =>
    cases chain.getBlockNumber with
    | error e => rfl
    | ok blockNumber =>
      simp only []
      rw [saveRecord_withEarlier]
      have hlib : ∀ info st, saveRecord (neverDiffering lib) dirname chain.networkName clock d
          info st = saveRecord lib dirname chain.networkName clock d info st := fun _ _ => rfl
      rw [hlib]
      rcases saveRecord lib dirname chain.networkName clock d
        (deploymentInfo chain.networkName clock d accounts blockNumber)
        { fs := s.fs, trace := [] } with ⟨r, s2⟩
      cases r with
      | error e => rfl
      | ok u =>
        simp only []
        rw [updateProperties_withEarlier]

theorem main_neverDiffering_events (lib : Lib) (dirname : Str) (clock : Clock) (chain : Chain)
    (s : Sys) :
    ∀ e ∈ (main (neverDiffering lib) dirname clock chain s).sys.trace,
      e ∈ s.trace ∨ ∀ a b, e ≠ Event.warn (Warning.adminMismatch a b) := by
  unfold main
  cases deployAndVerify chain with
  | error e => exact fun e he => Or.inl he
  | ok d =>
    simp only [checkAdmin_neverDiffering]
    cases accountsInfo (neverDiffering lib) chain with
    | error e => exact fun e he => Or.inl he
    | ok accounts =>
      cases chain.getBlockNumber with
      | error e => exact fun e he => Or.inl he
      | ok blockNumber =>
        simp only []
        have hsave := saveRecord_events (neverDiffering lib) dirname chain.networkName clock d
          (deploymentInfo chain.networkName clock d accounts blockNumber) s
        rcases hsv : saveRecord (neverDiffering lib) dirname chain.networkName clock d
          (deploymentInfo chain.networkName clock d accounts blockNumber) s with ⟨r, s2⟩
        rw [hsv] at hsave
        have hsave2 : ∀ e ∈ s2.trace,
            e ∈ s.trace ∨ ∀ a b, e ≠ Event.warn (Warning.adminMismatch a b) := by
          intro e he
          rcases hsave e he with h | h
          · exact Or.inl h
          · exact Or.inr fun a b => h _
        cases r with
        | error e => exact hsave2
        | ok u =>
          intro e he
          rcases updateProperties_events dirname d.contractAddress d.chainId chain.networkName
            s2 e he with h | h
          · exact hsave2 e h
          · exact Or.inr h

/-- C5. Once the chain has been read (`d` holds the admin and the deployer),
the comparison of the two addresses decides nothing but a warning: the exit
code and the final file system are those of the same run with a comparison
that never differs; the final trace is the earlier events, then the warning
exactly when the lower-cased addresses differ, then the events of that other
run, none of which is an admin warning.  When the remaining steps succeed, the
exit code is 0 and the record file holds the serialised record. -/
theorem admin_mismatch_is_advisory (lib : Lib) (dirname : Str) (clock : Clock) (chain : Chain)
    (s : Sys) (d : Deployed) (h1 : deployAndVerify chain = .ok d) :
    (main lib dirname clock chain s).exitCode =
      (main (neverDiffering lib) dirname clock chain { fs := s.fs, trace := [] }).exitCode ∧
    (main lib dirname clock chain s).sys.fs =
      (main (neverDiffering lib) dirname clock chain { fs := s.fs, trace := [] }).sys.fs ∧
    (main lib dirname clock chain s).sys.trace =
      (s.trace ++ (if lib.toLowerCase d.admin ≠ lib.toLowerCase d.deployerAddress then
        [Event.warn (Warning.adminMismatch d.admin d.deployerAddress)] else [])) ++
      (main (neverDiffering lib) dirname clock chain { fs := s.fs, trace := [] }).sys.trace ∧
    (∀ a b, Event.warn (Warning.adminMismatch a b) ∉
      (main (neverDiffering lib) dirname clock chain { fs := s.fs, trace := [] }).sys.trace) ∧
    (∀ accounts blockNumber s2, accountsInfo lib chain = .ok accounts →
      chain.getBlockNumber = .ok blockNumber →
      saveRecord lib dirname chain.networkName clock d
        (deploymentInfo chain.networkName clock d accounts blockNumber) (checkAdmin lib d s)
          = (.ok (), s2) →
      (main lib dirname clock chain s).exitCode = 0 ∧
      (main lib dirname clock chain s).sys.fs.file (deploymentFile dirname chain.networkName)
        = some (lib.jsonStringify
            (deploymentInfo chain.networkName clock d accounts blockNumber))) := by
  refine ⟨?_, ?_, ?_, ?_, ?_⟩
  · rw [main_eq_withEarlier lib dirname clock chain s d h1]
  · rw [main_eq_withEarlier lib dirname clock chain s d h1]; rfl
  · rw [main_eq_withEarlier lib dirname clock chain s d h1]; rfl
  · intro a b hmem
    rcases main_neverDiffering_events lib dirname clock chain { fs := s.fs, trace := [] } _ hmem
      with h | h
    · exact absurd h (by simp)
    · exact h a b rfl
  · intro accounts blockNumber s2 h2 h3 h4
    refine ⟨?_, record_file_after_main h1 h2 h3 h4⟩
    rw [main_of_saved h1 h2 h3 h4]

/-- C5 at the sample run with an admin that is not the deployer: the warning
is in the trace and the exit code is 0. -/
theorem admin_mismatch_witness :
    (main sampleLib sampleDirname sampleClock (sampleChain "0x6080".toList "0xDEAD".toList)
      (sampleSys false [])).exitCode = 0 :=
  ((admin_mismatch_is_advisory sampleLib sampleDirname sampleClock
    (sampleChain "0x6080".toList "0xDEAD".toList) (sampleSys false [])
    (sampleDeployed "0xDEAD".toList)
    (deployAndVerify_of_ok rfl rfl rfl rfl rfl (by decide) rfl rfl rfl)).2.2.2.2
    [accountEntry sampleLib 0 "0xf39F".toList 10000,
     accountEntry sampleLib 1 "0x7099".toList 10000] 1
    (saveRecord sampleLib sampleDirname "localhost".toList sampleClock
      (sampleDeployed "0xDEAD".toList)
      (deploymentInfo "localhost".toList sampleClock (sampleDeployed "0xDEAD".toList)
        [accountEntry sampleLib 0 "0xf39F".toList 10000,
         accountEntry sampleLib 1 "0x7099".toList 10000] 1)
      (checkAdmin sampleLib (sampleDeployed "0xDEAD".toList) (sampleSys false []))).2
    rfl rfl rfl).1

end DeployScript

namespace GetAccounts

open DeployScript (Str Error decimal)

end GetAccounts
